import Mathlib

/-!
BLE printer bridge: the device-session core, the CORS middleware and the receipt encoder.

A shallow embedding of `internal/ble/ble.go`, of the CORS and authentication handlers of
`internal/httpapi` and of `internal/printing/escpos.go`.

* Go strings are modelled as `List Char` (sequences of Unicode code points); `len(s)` is the
  UTF-8 byte length.
* Outside ASCII the case mapping of `unicode.ToUpper` is a parameter (`tbl`); inside ASCII it
  is computed.
* Go `int` is a 64-bit two's-complement integer: an `Int` wrapped by `wrap64`.
* The radio stack (`tinygo.org/x/bluetooth`) is an external collaborator.  It is modelled as an
  oracle `Radio` whose answers may depend on the whole history of events so far; every
  operation threads that history (`List Event`) explicitly, so "which calls were issued, in
  which order" is observable.
* Every session operation runs under `c.mu`, so it is atomic with respect to the others; the
  embedding is the sequential semantics of one operation.
* `Scan` is embedded over its global flag `scanInProgress`; the asynchronous discovery pass
  (goroutine, sleep, `select`) is an oracle `Discovery` for the advertisements delivered and
  for the way the wait for the stop acknowledgment ends.
* HTTP handlers are functions on the state of the response writer.
-/

deriving instance DecidableEq for Except

namespace BLE

/-! ## Go strings -/

/-- A Go string, as its sequence of code points. -/
abbrev GoString := List Char

/-- Byte length of a Go string: `len(s)`. -/
def goLen (s : GoString) : Nat := (s.map Char.utf8Size).sum

/-- Whitespace as defined by `unicode.IsSpace`: the Latin-1 spaces
`'\t', '\n', '\v', '\f', '\r', ' ', U+0085, U+00A0` and the code points of the Unicode
`White_Space` property above Latin-1. -/
def isSpace (c : Char) : Bool :=
  let n := c.toNat
  (0x09 ≤ n && n ≤ 0x0D) || n == 0x20 || n == 0x85 || n == 0xA0 || n == 0x1680 ||
  (0x2000 ≤ n && n ≤ 0x200A) || n == 0x2028 || n == 0x2029 || n == 0x202F || n == 0x205F ||
  n == 0x3000

/-- Drop leading whitespace. -/
def trimLeft (s : GoString) : GoString := s.dropWhile isSpace

/-- Drop trailing whitespace. -/
def trimRight (s : GoString) : GoString := (s.reverse.dropWhile isSpace).reverse

/-- The function `strings.TrimSpace`: remove all leading and trailing whitespace. -/
def trimSpace (s : GoString) : GoString := trimRight (trimLeft s)

/-- The function `unicode.ToUpper` on the ASCII range: `'a'..'z'` are shifted to `'A'..'Z'`,
every other ASCII code point is unchanged. -/
def asciiUpper (c : Char) : Char :=
  if 'a'.toNat ≤ c.toNat ∧ c.toNat ≤ 'z'.toNat then Char.ofNat (c.toNat - 32) else c

/-- The function `unicode.ToUpper`: the ASCII range is handled by `asciiUpper`; outside ASCII
the mapping is the Unicode case table, taken as the parameter `tbl`. -/
def upperRune (tbl : Char → Char) (c : Char) : Char :=
  if c.toNat < 128 then asciiUpper c else tbl c

/-- The function `strings.ToUpper`: every code point mapped to its upper case. -/
def toUpper (tbl : Char → Char) (s : GoString) : GoString := s.map (upperRune tbl)

/-- The call `strings.ReplaceAll(s, old, new)` for one-character `old` and `new`. -/
def replaceAll (s : GoString) (old new : Char) : GoString :=
  s.map fun c => if c = old then new else c

/-- The call `strings.Split(s, sep)` for a one-character separator: the pieces between
consecutive separators; a string with `n` separators yields `n + 1` pieces and the empty
string yields one empty piece. -/
def split (sep : Char) : GoString → List GoString
  | [] => [[]]
  | c :: cs =>
    if c = sep then [] :: split sep cs
    else
      match split sep cs with
      | [] => [[c]]
      | g :: gs => (c :: g) :: gs

/-- Whether a byte is accepted by `encoding/hex`: `0-9`, `a-f`, `A-F`. -/
def isHexChar (c : Char) : Bool :=
  let n := c.toNat
  (0x30 ≤ n && n ≤ 0x39) || (0x61 ≤ n && n ≤ 0x66) || (0x41 ≤ n && n ≤ 0x46)

/-- Whether `hex.DecodeString(s)` returns no error: the byte length is even and every byte is
a hexadecimal digit.  A code point outside ASCII is encoded with bytes `≥ 0x80`, none of
which is a hexadecimal digit. -/
def hexDecodeOk (s : GoString) : Bool :=
  goLen s % 2 == 0 && s.all isHexChar

/-! ## Errors -/

/-- Error values returned by the session core.  `adapter` is an opaque error of the radio
stack; `linkUnverified e` is `fmt.Errorf("connected but could not verify link: %w", e)`;
`invalidAddressFormat raw` is `fmt.Errorf("invalid device address format: %q", raw)`;
`scanBusy` is `ErrScanBusy`; `scanTimeout d` is
`fmt.Errorf("%w after %s scan window", ErrScanTimeout, d)`, with `d` in nanoseconds. -/
inductive Err where
  | invalidAddressFormat (raw : GoString)
  | notConnected
  | serviceNotFound
  | characteristicNotFound
  | linkUnverified (cause : Err)
  | adapter (code : Nat)
  | scanBusy
  | scanTimeout (window : Int)
  deriving DecidableEq, Repr

/-! ## Address normalisation -/

/-- The range loop of `normalizeAddress`: every part has byte length 2 and decodes as hex. -/
def partsOk : List GoString → Bool
  | [] => true
  | part :: rest =>
    if goLen part ≠ 2 then false
    else if !hexDecodeOk part then false
    else partsOk rest

/-- The function `normalizeAddress` of `ble.go`. -/
def normalizeAddress (tbl : Char → Char) (address : GoString) : Except Err GoString :=
  let cleaned := toUpper tbl (trimSpace address)
  let cleaned := replaceAll cleaned '-' ':'
  let parts := split ':' cleaned
  if parts.length ≠ 6 then .error (.invalidAddressFormat address)
  else if !partsOk parts then .error (.invalidAddressFormat address)
  else .ok cleaned

/-- The exported wrapper `NormalizeAddress`. -/
def NormalizeAddress (tbl : Char → Char) (address : GoString) : Except Err GoString :=
  normalizeAddress tbl address

/-! ## The radio stack -/

/-- A byte of payload. -/
abbrev Byte := UInt8

/-- A parsed `bluetooth.UUID`. -/
structure UUID where
  raw : Nat
  deriving DecidableEq, Repr

/-- A `bluetooth.Device`: the handle of one link.  The zero value is `⟨0⟩`. -/
structure Device where
  id : Nat
  deriving DecidableEq, Repr

/-- A `bluetooth.DeviceService`. -/
structure DeviceService where
  id : Nat
  uuid : UUID
  deriving DecidableEq, Repr

/-- A `bluetooth.DeviceCharacteristic`; `properties` is the value of `Properties()`. -/
structure DeviceCharacteristic where
  id : Nat
  uuid : UUID
  properties : Nat
  deriving DecidableEq, Repr

/-- One observable action of the session core on its collaborators: the calls into the radio
stack and the pacing delay `time.Sleep`.  A `filter` of `none` is the Go argument `nil`. -/
inductive Event where
  | connect (address : GoString)
  | disconnect (dev : Device)
  | discoverServices (dev : Device) (filter : Option (List UUID))
  | discoverCharacteristics (svc : DeviceService) (filter : Option (List UUID))
  | write (ch : DeviceCharacteristic) (part : List Byte)
  | writeWithoutResponse (ch : DeviceCharacteristic) (part : List Byte)
  | sleep (ms : Nat)
  deriving DecidableEq, Repr

/-- The radio stack as an oracle.  Every answer may depend on the history of events that
precede the call (first argument), so any deterministic adapter, device or peripheral
behaviour is an instance.  `disconnect`, `write` and `writeWithoutResponse` answer with the
`error` value (`none` is `nil`). -/
structure Radio where
  parseUUID : GoString → Except Err UUID
  formatUUID : UUID → GoString
  connect : List Event → GoString → Except Err Device
  disconnect : List Event → Device → Option Err
  discoverServices : List Event → Device → Option (List UUID) → Except Err (List DeviceService)
  discoverCharacteristics :
    List Event → DeviceService → Option (List UUID) → Except Err (List DeviceCharacteristic)
  write : List Event → DeviceCharacteristic → List Byte → Option Err
  writeWithoutResponse : List Event → DeviceCharacteristic → List Byte → Option Err

/-! ## The session -/

/-- The struct `Client` (the mutex is not part of the sequential state). -/
structure Client where
  dev : Device
  connected : Bool
  deriving DecidableEq, Repr

/-- The result of one operation: the returned value, the session afterwards and the event
history afterwards. -/
structure Step (α : Type) where
  ret : α
  client : Client
  trace : List Event
  deriving DecidableEq, Repr

/-- The method `Client.Connect`. -/
def Client.Connect (tbl : Char → Char) (r : Radio) (c : Client) (address : GoString)
    (h : List Event) : Step (Option Err) :=
  match normalizeAddress tbl address with
  | .error err => ⟨some err, c, h⟩
  | .ok cleanAddress =>
    -- if c.connected { _ = c.dev.Disconnect(); c.connected = false }
    let _ := if c.connected then r.disconnect h c.dev else none
    let h1 := if c.connected then h ++ [Event.disconnect c.dev] else h
    let c1 : Client := if c.connected then { c with connected := false } else c
    -- a.Set(cleanAddress); dev, err := Adapter.Connect(a, bluetooth.ConnectionParams{})
    let h2 := h1 ++ [Event.connect cleanAddress]
    match r.connect h1 cleanAddress with
    | .error err => ⟨some err, c1, h2⟩
    | .ok dev =>
      -- if _, err := dev.DiscoverServices(nil); err != nil
      let h3 := h2 ++ [Event.discoverServices dev none]
      match r.discoverServices h2 dev none with
      | .error err =>
        -- _ = dev.Disconnect()
        let _ := r.disconnect h3 dev
        ⟨some (.linkUnverified err), c1, h3 ++ [Event.disconnect dev]⟩
      | .ok _ => ⟨none, { dev := dev, connected := true }, h3⟩

/-- The method `Client.IsConnected`. -/
def Client.IsConnected (r : Radio) (c : Client) (h : List Event) : Step Bool :=
  if !c.connected then ⟨false, c, h⟩
  else
    let h1 := h ++ [Event.discoverServices c.dev none]
    match r.discoverServices h c.dev none with
    | .error _ =>
      -- _ = c.dev.Disconnect(); c.connected = false
      let _ := r.disconnect h1 c.dev
      let c1 : Client := { c with connected := false }
      ⟨c1.connected, c1, h1 ++ [Event.disconnect c.dev]⟩
    | .ok _ => ⟨c.connected, c, h1⟩

/-- The method `Client.Disconnect`. -/
def Client.Disconnect (r : Radio) (c : Client) (h : List Event) : Step (Option Err) :=
  if !c.connected then ⟨none, c, h⟩
  else
    let h1 := h ++ [Event.disconnect c.dev]
    match r.disconnect h c.dev with
    | some err => ⟨some err, c, h1⟩
    | none => ⟨none, { c with connected := false }, h1⟩

/-! ## Describe -/

/-- The struct `CharacteristicInfo`. -/
structure CharacteristicInfo where
  UUID : GoString
  Write : Bool
  WriteWithoutResponse : Bool
  Notify : Bool
  Read : Bool
  deriving DecidableEq, Repr

/-- The struct `ServiceInfo`. -/
structure ServiceInfo where
  UUID : GoString
  Characteristics : List CharacteristicInfo
  deriving DecidableEq, Repr

/-- The struct `DescribeResult`. -/
structure DescribeResult where
  Services : List ServiceInfo
  deriving DecidableEq, Repr

/-- The inner loop of `Describe`: one `CharacteristicInfo` per characteristic, the capability
bits read from `uint32(ch.Properties())`. -/
def charInfos (r : Radio) (chars : List DeviceCharacteristic) : List CharacteristicInfo :=
  chars.map fun ch =>
    let props := ch.properties % 2 ^ 32
    { UUID := r.formatUUID ch.uuid
      Read := (props &&& 0x02) != 0
      WriteWithoutResponse := (props &&& 0x04) != 0
      Write := (props &&& 0x08) != 0
      Notify := (props &&& 0x10) != 0 }

/-- The outer loop of `Describe` over the discovered services: a service whose
`DiscoverCharacteristics` fails hits `continue` before the `append`. -/
def describeLoop (r : Radio) :
    List DeviceService → List ServiceInfo → List Event → List ServiceInfo × List Event
  | [], out, h => (out, h)
  | s :: rest, out, h =>
    let h1 := h ++ [Event.discoverCharacteristics s none]
    match r.discoverCharacteristics h s none with
    | .error _ => describeLoop r rest out h1
    | .ok chars =>
      describeLoop r rest
        (out ++ [{ UUID := r.formatUUID s.uuid, Characteristics := charInfos r chars }]) h1

/-- The method `Client.Describe`. -/
def Client.Describe (r : Radio) (c : Client) (h : List Event) :
    Step (Except Err DescribeResult) :=
  if !c.connected then ⟨.error .notConnected, c, h⟩
  else
    let h1 := h ++ [Event.discoverServices c.dev none]
    match r.discoverServices h c.dev none with
    | .error err => ⟨.error err, c, h1⟩
    | .ok services =>
      let (out, h2) := describeLoop r services [] h1
      ⟨.ok { Services := out }, c, h2⟩

/-! ## Print -/

/-- Go `int` arithmetic: the 64-bit two's-complement value of an integer. -/
def wrap64 (x : Int) : Int := (x + 2 ^ 63) % 2 ^ 64 - 2 ^ 63

/-- The slice expression `data[i:end]`; `none` is the run-time panic "slice bounds out of
range".  The capacity of `data` is taken to be its length. -/
def goSlice (data : List Byte) (i end_ : Int) : Option (List Byte) :=
  if 0 ≤ i ∧ i ≤ end_ ∧ end_ ≤ (data.length : Int) then
    some ((data.take end_.toNat).drop i.toNat)
  else none

/-- How a call ends: by returning a value or by a run-time panic. -/
inductive Outcome (α : Type) where
  | returned (a : α)
  | panicked
  deriving DecidableEq, Repr

/-- The `for i := 0; i < len(data); i += chunkSize` loop of `Print`, entered with the current
`i` and history.  The first argument bounds the number of iterations still allowed; `none`
means that bound was exhausted. -/
def printLoop (r : Radio) (ch : DeviceCharacteristic) (data : List Byte) (chunkSize : Int)
    (withResponse : Bool) : Nat → Int → List Event → Option (Outcome (Option Err) × List Event)
  | fuel, i, h =>
    if i < (data.length : Int) then
      match fuel with
      | 0 => none
      | fuel + 1 =>
        let end0 := wrap64 (i + chunkSize)
        let end_ := if end0 > (data.length : Int) then (data.length : Int) else end0
        match goSlice data i end_ with
        | none => some (.panicked, h)
        | some part =>
          let err :=
            if withResponse then r.write h ch part else r.writeWithoutResponse h ch part
          let h1 :=
            h ++ [if withResponse then Event.write ch part
                  else Event.writeWithoutResponse ch part]
          match err with
          | some e => some (.returned (some e), h1)
          | none =>
            -- time.Sleep(10 * time.Millisecond); i += chunkSize
            printLoop r ch data chunkSize withResponse fuel (wrap64 (i + chunkSize))
              (h1 ++ [Event.sleep 10])
    else some (.returned none, h)

/-- The method `Client.Print`.  The loop is run with `len(data)` iterations allowed (every
iteration that continues consumes at least one byte); `none` would mean that this bound did
not suffice. -/
def Client.Print (r : Radio) (c : Client) (serviceUUID charUUID : GoString) (data : List Byte)
    (chunkSize : Int) (withResponse : Bool) (h : List Event) :
    Option (Step (Outcome (Option Err))) :=
  if !c.connected then some ⟨.returned (some .notConnected), c, h⟩
  else
    let chunkSize := if chunkSize ≤ 0 then 180 else chunkSize
    match r.parseUUID serviceUUID with
    | .error err => some ⟨.returned (some err), c, h⟩
    | .ok su =>
      match r.parseUUID charUUID with
      | .error err => some ⟨.returned (some err), c, h⟩
      | .ok cu =>
        let h1 := h ++ [Event.discoverServices c.dev (some [su])]
        match r.discoverServices h c.dev (some [su]) with
        | .error err => some ⟨.returned (some err), c, h1⟩
        | .ok [] => some ⟨.returned (some .serviceNotFound), c, h1⟩
        | .ok (svc :: _) =>
          let h2 := h1 ++ [Event.discoverCharacteristics svc (some [cu])]
          match r.discoverCharacteristics h1 svc (some [cu]) with
          | .error err => some ⟨.returned (some err), c, h2⟩
          | .ok [] => some ⟨.returned (some .characteristicNotFound), c, h2⟩
          | .ok (ch :: _) =>
            (printLoop r ch data chunkSize withResponse data.length 0 h2).map
              fun res => ⟨res.1, c, res.2⟩

/-! ## Specification-side vocabulary for `Print` -/

/-- The chunk size `Print` works with: the requested one if positive, 180 otherwise. -/
def effectiveChunk (chunkSize : Int) : Nat :=
  if chunkSize ≤ 0 then 180 else chunkSize.toNat

/-- The number of writes the specification promises: `ceil(L / C)`. -/
def ceilDiv (L C : Nat) : Nat := (L + C - 1) / C

/-- The `k`-th fragment of the specification: `payload[k*C .. min((k+1)*C, L))`. -/
def fragment (C : Nat) (data : List Byte) (k : Nat) : List Byte :=
  (data.take (min ((k + 1) * C) data.length)).drop (k * C)

/-- The write primitive selected by the `acknowledged` flag, as an event. -/
def writeEvent (withResponse : Bool) (ch : DeviceCharacteristic) (part : List Byte) : Event :=
  if withResponse then Event.write ch part else Event.writeWithoutResponse ch part

/-- The answer of the selected write primitive after history `h`. -/
def writeAnswer (r : Radio) (withResponse : Bool) (h : List Event) (ch : DeviceCharacteristic)
    (part : List Byte) : Option Err :=
  if withResponse then r.write h ch part else r.writeWithoutResponse h ch part

/-- The events of `k` successfully written fragments: each write followed by its pacing
delay. -/
def sentEvents (withResponse : Bool) (ch : DeviceCharacteristic) (C : Nat) (data : List Byte) :
    Nat → List Event
  | 0 => []
  | k + 1 =>
    sentEvents withResponse ch C data k ++
      [writeEvent withResponse ch (fragment C data k), Event.sleep 10]

/-- The payloads of the write calls (of either primitive) in a list of events, in order. -/
def writePayloads (es : List Event) : List (List Byte) :=
  es.filterMap fun e =>
    match e with
    | .write _ p => some p
    | .writeWithoutResponse _ p => some p
    | _ => none

/-- The two discovery calls by which `Print` resolves its target characteristic. -/
def resolveEvents (c : Client) (su : UUID) (svc : DeviceService) (cu : UUID) : List Event :=
  [Event.discoverServices c.dev (some [su]), Event.discoverCharacteristics svc (some [cu])]

/-- The events appended to history `h` by an operation that ended with history `t`. -/
def issued (h t : List Event) : List Event := t.drop h.length

/-! ## Specification-side vocabulary for address normalisation -/

/-- The hexadecimal digits. -/
def hexDigits : List Char := "0123456789abcdefABCDEF".toList

/-- The upper-case hexadecimal digits. -/
def upperHexDigits : List Char := "0123456789ABCDEF".toList

/-- The string the specification validates: the input with surrounding whitespace trimmed,
upper-cased, and every `-` replaced by `:`. -/
def transformed (tbl : Char → Char) (raw : GoString) : GoString :=
  replaceAll (toUpper tbl (trimSpace raw)) '-' ':'

/-- The specification's validity condition: the string splits on `:` into exactly 6 groups,
each consisting of exactly 2 hexadecimal digits. -/
def SixHexGroups (s : GoString) : Prop :=
  (split ':' s).length = 6 ∧ ∀ g ∈ split ':' s, g.length = 2 ∧ ∀ c ∈ g, c ∈ hexDigits

instance (s : GoString) : Decidable (SixHexGroups s) :=
  inferInstanceAs (Decidable ((split ':' s).length = 6 ∧
    ∀ g ∈ split ':' s, g.length = 2 ∧ ∀ c ∈ g, c ∈ hexDigits))

/-- A canonical address: six groups of two upper-case hexadecimal digits joined by `:`. -/
def IsCanonical (a : GoString) : Prop :=
  ∃ groups : List GoString, groups.length = 6 ∧
    (∀ g ∈ groups, g.length = 2 ∧ ∀ c ∈ g, c ∈ upperHexDigits) ∧
    a = List.intercalate [':'] groups

/-- The lower-case form of an ASCII letter; other code points are unchanged. -/
def lowerAscii (c : Char) : Char :=
  if 'A'.toNat ≤ c.toNat ∧ c.toNat ≤ 'Z'.toNat then Char.ofNat (c.toNat + 32) else c

/-- How one character of a spelling `x` may differ from the character of the canonical
address at the same position: it is the same, or the lower-case form of a letter, or a `-`
standing for a `:`. -/
def Variant (x a : Char) : Prop :=
  x = a ∨ x = lowerAscii a ∨ (a = ':' ∧ x = '-')

instance (x a : Char) : Decidable (Variant x a) :=
  inferInstanceAs (Decidable (x = a ∨ x = lowerAscii a ∨ (a = ':' ∧ x = '-')))

/-! ## Sequences of session operations -/

/-- The operations of the session other than `Connect`, with their arguments. -/
inductive Op where
  | isConnected
  | disconnect
  | describe
  | print (serviceUUID charUUID : GoString) (data : List Byte) (chunkSize : Int)
      (withResponse : Bool)

/-- The effect of one operation on the session and the event history. -/
def Op.run (r : Radio) : Op → Client × List Event → Client × List Event
  | .isConnected, (c, h) => ((c.IsConnected r h).client, (c.IsConnected r h).trace)
  | .disconnect, (c, h) => ((c.Disconnect r h).client, (c.Disconnect r h).trace)
  | .describe, (c, h) => ((c.Describe r h).client, (c.Describe r h).trace)
  | .print su cu data chunkSize wr, (c, h) =>
    match c.Print r su cu data chunkSize wr h with
    | some s => (s.client, s.trace)
    | none => (c, h)

/-- The effect of a sequence of operations, run one after the other. -/
def runOps (r : Radio) (ops : List Op) (st : Client × List Event) : Client × List Event :=
  ops.foldl (fun st op => op.run r st) st

/-- The history at the moment `Connect` asks the adapter for the new link: the old link, if
any, has been told to disconnect. -/
def afterOldTeardown (c : Client) (h : List Event) : List Event :=
  if c.connected then h ++ [Event.disconnect c.dev] else h

/-! ## Concrete radios used to instantiate the theorems -/

/-- A radio on which every call succeeds: one service, one characteristic. -/
def okRadio : Radio where
  parseUUID := fun s => .ok ⟨s.length⟩
  formatUUID := fun _ => []
  connect := fun _ _ => .ok ⟨1⟩
  disconnect := fun _ _ => none
  discoverServices := fun _ _ _ => .ok [⟨7, ⟨4⟩⟩]
  discoverCharacteristics := fun _ _ _ => .ok [⟨9, ⟨5⟩, 8⟩]
  write := fun _ _ _ => none
  writeWithoutResponse := fun _ _ _ => none

/-- A radio like `okRadio` whose peripheral rejects the second write it receives. -/
def secondWriteFails : Radio :=
  { okRadio with
    write := fun h _ _ => if (writePayloads h).length = 1 then some (.adapter 5) else none
    writeWithoutResponse := fun h _ _ =>
      if (writePayloads h).length = 1 then some (.adapter 5) else none }

/-- A radio like `okRadio` on which the service-discovery probe fails. -/
def probeFails : Radio :=
  { okRadio with discoverServices := fun _ _ _ => .error (.adapter 2) }

/-- A radio like `okRadio` on which tearing a link down fails. -/
def teardownFails : Radio :=
  { okRadio with disconnect := fun _ _ => some (.adapter 3) }

/-! ## Specification-side vocabulary for `Describe` -/

/-- The event of enumerating the characteristics of one service. -/
def enumerateEvent (s : DeviceService) : Event := Event.discoverCharacteristics s none

/-- The entry `Describe` reports for the `k`-th discovered service, if any: the history at
that moment is the history `h1` after service discovery followed by one enumeration call for
each earlier service; a failed enumeration yields no entry. -/
def describeEntry (r : Radio) (h1 : List Event) (services : List DeviceService) (k : Nat) :
    Option ServiceInfo :=
  match services[k]? with
  | none => none
  | some s =>
    match r.discoverCharacteristics (h1 ++ (services.take k).map enumerateEvent) s none with
    | .error _ => none
    | .ok chars => some { UUID := r.formatUUID s.uuid, Characteristics := charInfos r chars }

/-- A radio like `okRadio` with two services, on which enumerating the characteristics of the
first service (id 7) fails. -/
def firstEnumerationFails : Radio :=
  { okRadio with
    formatUUID := fun u => [Char.ofNat (48 + u.raw)]
    discoverServices := fun _ _ _ => .ok [⟨7, ⟨4⟩⟩, ⟨8, ⟨6⟩⟩]
    discoverCharacteristics := fun _ s _ =>
      if s.id = 7 then .error (.adapter 9) else .ok [⟨9, ⟨5⟩, 8⟩] }

/-! ## Scan -/

/-- The function `unicode.ToLower`: the ASCII range is handled by `lowerAscii`; outside ASCII
the mapping is the Unicode case table, taken as the parameter `tbl`. -/
def lowerRune (tbl : Char → Char) (c : Char) : Char :=
  if c.toNat < 128 then lowerAscii c else tbl c

/-- The function `strings.ToLower`: every code point mapped to its lower case. -/
def toLower (tbl : Char → Char) (s : GoString) : GoString := s.map (lowerRune tbl)

/-- The function `strings.HasPrefix`. -/
def hasPrefix : GoString → GoString → Bool
  | _, [] => true
  | [], _ :: _ => false
  | c :: s, d :: p => c == d && hasPrefix s p

/-- The function `strings.Contains`: whether `substr` occurs in `s` at some position. -/
def contains : GoString → GoString → Bool
  | [], substr => hasPrefix [] substr
  | c :: cs, substr => hasPrefix (c :: cs) substr || contains cs substr

/-- What the scan callback reads from a `bluetooth.ScanResult`: `r.Address.String()`,
`r.LocalName()` and `r.RSSI`. -/
structure ScanResult where
  Address : GoString
  LocalName : GoString
  RSSI : Int
  deriving DecidableEq, Repr

/-- The struct `ScanHit`. -/
structure ScanHit where
  Address : GoString
  Name : GoString
  RSSI : Int
  deriving DecidableEq, Repr

/-- How the stop-and-wait `select` of `Scan` ends: the discovery goroutine delivers the value
returned by `Adapter.Scan` on `scanDone`, or the grace timer fires first. -/
inductive StopResult where
  | acknowledged (err : Option Err)
  | graceExpired
  deriving DecidableEq, Repr

/-- One discovery pass as the radio stack and the scheduler make it happen: the
advertisements handed to the callback, in delivery order, and the way the wait for the stop
acknowledgment ends. -/
structure Discovery where
  adverts : List ScanResult
  stop : StopResult
  deriving DecidableEq, Repr

/-- The observable actions of `Scan`: writes of the flag `scanInProgress` (each under
`scanMu`), the start of the discovery goroutine, the sleep and the stop signal. -/
inductive ScanEvent where
  | setInProgress (b : Bool)
  | startScan
  | sleep (nanos : Int)
  | stopScan
  deriving DecidableEq, Repr

/-- The result of one `Scan`: the returned pair (hits or error), the flag `scanInProgress`
afterwards and the actions performed. -/
structure ScanStep where
  ret : Except Err (List ScanHit)
  scanInProgress : Bool
  trace : List ScanEvent
  deriving DecidableEq, Repr

/-- The callback passed to `Adapter.Scan`, as a step on the slice `hits`. -/
def scanCallback (tbl : Char → Char) (nameContains : GoString) (hits : List ScanHit)
    (r : ScanResult) : List ScanHit :=
  let name := r.LocalName
  if nameContains ≠ [] && !contains (toLower tbl name) (toLower tbl nameContains) then hits
  else hits ++ [{ Address := r.Address, Name := name, RSSI := r.RSSI }]

/-- The function `Scan`.  `tbl` is the Unicode lower-case table outside ASCII, `d` the
discovery pass, `scanInProgress` the value of the global flag at entry. -/
def Scan (tbl : Char → Char) (seconds : Int) (nameContains : GoString) (d : Discovery)
    (scanInProgress : Bool) : ScanStep :=
  let seconds := if seconds ≤ 0 then 8 else seconds
  if scanInProgress then ⟨.error .scanBusy, scanInProgress, []⟩
  else
    -- scanInProgress = true, and the deferred scanInProgress = false on every return below
    let window := wrap64 (wrap64 seconds * 1000000000)
    let hits := d.adverts.foldl (scanCallback tbl nameContains) []
    let pass :=
      [ScanEvent.setInProgress true, ScanEvent.startScan, ScanEvent.sleep window,
        ScanEvent.stopScan]
    match d.stop with
    | .graceExpired => ⟨.error (.scanTimeout window), false, pass ++ [.setInProgress false]⟩
    | .acknowledged (some err) => ⟨.error err, false, pass ++ [.setInProgress false]⟩
    | .acknowledged none => ⟨.ok hits, false, pass ++ [.setInProgress false]⟩

/-- The value of `scanInProgress` after a list of actions, starting from `flag`. -/
def flagAfter (flag : Bool) : List ScanEvent → Bool
  | [] => flag
  | .setInProgress b :: rest => flagAfter b rest
  | _ :: rest => flagAfter flag rest

/-- The hit recorded for an advertisement. -/
def toHit (r : ScanResult) : ScanHit :=
  { Address := r.Address, Name := r.LocalName, RSSI := r.RSSI }

/-- A pass with four advertisements that ends normally. -/
def samplePass : Discovery where
  adverts :=
    [⟨"AA".toList, "POS-Printer".toList, -40⟩, ⟨"BB".toList, "Phone".toList, -70⟩,
      ⟨"AA".toList, "POS-Printer".toList, -41⟩, ⟨"CC".toList, "my printer 2".toList, -60⟩]
  stop := .acknowledged none

/-! ## CORS middleware and authentication (`internal/httpapi`) -/

/-- The constant `corsAllowMethods`. -/
def corsAllowMethods : GoString := "GET,POST,PUT,PATCH,DELETE,OPTIONS".toList

/-- The constant `corsAllowHeaders`. -/
def corsAllowHeaders : GoString := "content-type,authorization,x-api-key".toList

/-- The constant `corsMaxAge`. -/
def corsMaxAge : GoString := "600".toList

/-- A compiled `*regexp.Regexp`, as its method `MatchString`. -/
structure Regexp where
  MatchString : GoString → Bool

/-- The struct `originPattern`; a nil `re` is `none`. -/
structure originPattern where
  raw : GoString
  re : Option Regexp
  valid : Bool

/-- The struct `corsConfig`; the map `allowOrigins` is the list of its keys. -/
structure corsConfig where
  allowOrigins : List GoString
  allowOriginPatterns : List originPattern

/-- The function `strings.TrimSuffix`. -/
def trimSuffix (s suffix : GoString) : GoString :=
  if suffix <:+ s then s.take (s.length - suffix.length) else s

/-- The function `normalizeOrigin`. -/
def normalizeOrigin (origin : GoString) : GoString :=
  let trimmed := trimSpace origin
  let trimmed := trimSuffix trimmed ['/']
  trimmed

/-- The map assignment `result[key] = struct{}{}` on the list of keys. -/
def setInsert (result : List GoString) (key : GoString) : List GoString :=
  if key ∈ result then result else result ++ [key]

/-- The function `parseCSV`: the loop over `strings.Split(value, ",")`. -/
def parseCSV (value : GoString) : List GoString :=
  (split ',' value).foldl
    (fun result item =>
      let trimmed := normalizeOrigin (trimSpace item)
      if trimmed = [] then result else setInsert result trimmed)
    []

/-- The function `newCORSConfig`.  The result of `parsePatterns`, which rests on the package
`regexp`, is taken as the parameter `patterns`; the log lines are not part of the state. -/
def newCORSConfig (AllowOrigins : GoString) (patterns : List originPattern) : corsConfig :=
  { allowOrigins := parseCSV AllowOrigins, allowOriginPatterns := patterns }

/-- The pattern loop of `isOriginAllowed`. -/
def matchPatterns : List originPattern → GoString → Bool × GoString
  | [], _ => (false, "not allowed".toList)
  | pattern :: rest, normalizedOrigin =>
    match pattern.valid, pattern.re with
    | true, some re =>
      if re.MatchString normalizedOrigin then (true, "pattern match".toList)
      else matchPatterns rest normalizedOrigin
    | _, _ => matchPatterns rest normalizedOrigin

/-- The function `isOriginAllowed`. -/
def isOriginAllowed (cfg : corsConfig) (origin : GoString) : Bool × GoString :=
  let normalizedOrigin := normalizeOrigin origin
  if normalizedOrigin = [] then (false, "missing origin".toList)
  else if normalizedOrigin ∈ cfg.allowOrigins then (true, "explicit allowlist".toList)
  else matchPatterns cfg.allowOriginPatterns normalizedOrigin

/-- What the handlers read from an `*http.Request`: the method, the path, and the values of
`r.Header.Get("Origin")` and `r.Header.Get("x-api-key")` (empty when the header is absent). -/
structure Request where
  Method : GoString
  Path : GoString
  Origin : GoString
  ApiKey : GoString
  deriving DecidableEq, Repr

/-- An `http.Header`: the values stored under each key (none for an absent key).  All keys
used by the handlers are literals already in canonical form. -/
abbrev Header := GoString → List GoString

/-- The method `Header.Set`. -/
def Header.Set (h : Header) (key value : GoString) : Header :=
  fun k => if k = key then [value] else h k

/-- The method `Header.Add`. -/
def Header.Add (h : Header) (key value : GoString) : Header :=
  fun k => if k = key then h k ++ [value] else h k

/-- The method `Header.Del`. -/
def Header.Del (h : Header) (key : GoString) : Header :=
  fun k => if k = key then [] else h k

/-- The method `Header.Get`: the first value under the key, or the empty string. -/
def Header.Get (h : Header) (key : GoString) : GoString :=
  match h key with
  | [] => []
  | v :: _ => v

/-- The state of an `http.ResponseWriter`: its header map, the status code once written, and
the body written so far. -/
structure ResponseWriter where
  header : Header
  status : Option Nat
  body : GoString

/-- The method `WriteHeader`: the first status code written stands. -/
def ResponseWriter.WriteHeader (w : ResponseWriter) (code : Nat) : ResponseWriter :=
  match w.status with
  | some _ => w
  | none => { w with status := some code }

/-- The method `Write`: writes the status 200 if none was written, then appends to the body. -/
def ResponseWriter.Write (w : ResponseWriter) (data : GoString) : ResponseWriter :=
  { w.WriteHeader 200 with body := (w.WriteHeader 200).body ++ data }

/-- An `http.Handler`: its effect on the response writer. -/
abbrev Handler := ResponseWriter → Request → ResponseWriter

/-- The function `http.Error`. -/
def httpError (w : ResponseWriter) (error : GoString) (code : Nat) : ResponseWriter :=
  let h := w.header.Del "Content-Length".toList
  let h := h.Set "Content-Type".toList "text/plain; charset=utf-8".toList
  let h := h.Set "X-Content-Type-Options".toList "nosniff".toList
  ResponseWriter.Write (ResponseWriter.WriteHeader { w with header := h } code)
    (error ++ ['\n'])

/-- The function `corsMiddleware` (the debug log line on rejection is not part of the
state). -/
def corsMiddleware (cfg : corsConfig) (next : Handler) : Handler := fun w r =>
  let origin := r.Origin
  let allowed := (isOriginAllowed cfg origin).1
  let h := w.header.Set "Access-Control-Allow-Private-Network".toList "true".toList
  let h :=
    if origin ≠ [] && allowed then
      (h.Set "Access-Control-Allow-Origin".toList origin).Add "Vary".toList "Origin".toList
    else h
  if r.Method = "OPTIONS".toList then
    let h := h.Set "Access-Control-Allow-Methods".toList corsAllowMethods
    let h := h.Set "Access-Control-Allow-Headers".toList corsAllowHeaders
    let h := h.Set "Access-Control-Max-Age".toList corsMaxAge
    ResponseWriter.WriteHeader { w with header := h } 204
  else next { w with header := h } r

/-- The method `Server.requireAuth`; `currentAPIKey` is the value of `s.currentAPIKey()` (the
warning log line is not part of the state). -/
def requireAuth (currentAPIKey : GoString) (next : Handler) : Handler := fun w r =>
  if r.ApiKey ≠ currentAPIKey then httpError w "unauthorized".toList 401
  else next w r

/-- A fresh response: no header, no status, no body. -/
def freshResponse : ResponseWriter := { header := fun _ => [], status := none, body := [] }

/-- The wrapped handler of the CORS tests: `w.WriteHeader(http.StatusOK)`. -/
def okHandler : Handler := fun w _ => w.WriteHeader 200

/-! ## ESC/POS receipts (`internal/printing/escpos.go`) -/

/-- The function `TextReceipt`.  A Go string is a sequence of bytes; `text` is that sequence,
which is all the function reads (`len(text)`, `text[len(text)-1]`, `b.WriteString(text)`). -/
def TextReceipt (text : List Byte) : List Byte :=
  let b : List Byte := []
  let b := b ++ [0x1b, 0x40]
  let b := b ++ text
  let b :=
    if text.length = 0 ∨ text[text.length - 1]? ≠ some 0x0a then b ++ [0x0a] else b
  let b := b ++ [0x1d, 0x56, 0x00]
  b

end BLE

/-! # Theorems -/

namespace BLE

theorem wrap64_of_range (x : Int) (h1 : -2 ^ 63 ≤ x) (h2 : x < 2 ^ 63) : wrap64 x = x := by
  unfold wrap64
  rw [Int.emod_eq_of_lt (by omega) (by omega)]
  omega

theorem printLoop_done (r : Radio) (ch : DeviceCharacteristic) (data : List Byte) (cs : Int)
    (wr : Bool) (fuel : Nat) (i : Int) (h : List Event) (hi : ¬ i < (data.length : Int)) :
    printLoop r ch data cs wr fuel i h = some (.returned none, h) := by
  unfold printLoop
  simp [hi]

theorem goSlice_fragment (C : Nat) (data : List Byte) (k : Nat) (hk : k * C < data.length) :
    goSlice data ((k * C : Nat) : Int)
      (if (((k + 1) * C : Nat) : Int) > (data.length : Int) then (data.length : Int)
        else (((k + 1) * C : Nat) : Int)) = some (fragment C data k) := by
  have hle : k * C ≤ (k + 1) * C := Nat.mul_le_mul_right C (Nat.le_succ k)
  unfold goSlice fragment
  split_ifs with h1 h2 h3
  · simp only [Int.toNat_ofNat, Nat.min_eq_right (by omega : data.length ≤ (k + 1) * C)]
  · omega
  · have : (k + 1) * C ≤ data.length := by omega
    simp only [Int.toNat_ofNat, Nat.min_eq_left this]
  · omega

theorem wrap64_next (C L k : Nat) (hC : (C : Int) < 2 ^ 63) (hL : L ≤ 2 ^ 62)
    (hk : k * C < L) : wrap64 (((k * C : Nat) : Int) + (C : Int)) = (((k + 1) * C : Nat) : Int) := by
  have hsum : (((k * C : Nat) : Int) + (C : Int)) = (((k + 1) * C : Nat) : Int) := by
    push_cast; ring
  rw [hsum]
  apply wrap64_of_range
  · have : (0 : Int) ≤ (((k + 1) * C : Nat) : Int) := Int.ofNat_nonneg _
    omega
  · rcases Nat.eq_zero_or_pos k with hk0 | hkpos
    · subst hk0; simpa using hC
    · have h1 : C ≤ k * C := Nat.le_mul_of_pos_left C hkpos
      have h2 : (k + 1) * C = k * C + C := Nat.succ_mul k C
      have h3 : (k + 1) * C < 2 ^ 63 := by omega
      exact_mod_cast h3

/-- One iteration of the loop at offset `k * C`, when that offset is inside the payload. -/
theorem printLoop_step (r : Radio) (ch : DeviceCharacteristic) (data : List Byte) (C : Nat)
    (wr : Bool) (hC : (C : Int) < 2 ^ 63) (hL : data.length ≤ 2 ^ 62) (k : Nat)
    (hk : k * C < data.length) (fuel : Nat) (h : List Event) :
    printLoop r ch data (C : Int) wr (fuel + 1) ((k * C : Nat) : Int) h =
      match writeAnswer r wr h ch (fragment C data k) with
      | some e => some (.returned (some e), h ++ [writeEvent wr ch (fragment C data k)])
      | none =>
        printLoop r ch data (C : Int) wr fuel (((k + 1) * C : Nat) : Int)
          (h ++ [writeEvent wr ch (fragment C data k), Event.sleep 10]) := by
  have hlt : ((k * C : Nat) : Int) < (data.length : Int) := by exact_mod_cast hk
  have hw := wrap64_next C data.length k hC hL hk
  have hs := goSlice_fragment C data k hk
  rw [printLoop, if_pos hlt]
  simp only [hw]
  rw [hs]
  unfold writeAnswer writeEvent
  cases wr
  · simp only [Bool.false_eq_true, if_false]
    cases r.writeWithoutResponse h ch (fragment C data k) <;>
      simp only [List.append_assoc, List.singleton_append]
  · simp only [if_true]
    cases r.write h ch (fragment C data k) <;>
      simp only [List.append_assoc, List.singleton_append]

/-- Offsets inside the payload are exactly the fragment indices below `ceil(L / C)`. -/
theorem lt_ceilDiv_iff (L C k : Nat) (hC : 0 < C) : k < ceilDiv L C ↔ k * C < L := by
  unfold ceilDiv
  rw [Nat.lt_iff_add_one_le, Nat.le_div_iff_mul_le hC, Nat.succ_mul]
  omega

/-- When the writes of all fragments succeed the loop returns `nil` after writing every
fragment. -/
theorem printLoop_all_ok (r : Radio) (ch : DeviceCharacteristic) (data : List Byte) (C : Nat)
    (wr : Bool) (hC0 : 0 < C) (hC : (C : Int) < 2 ^ 63) (hL : data.length ≤ 2 ^ 62)
    (h0 : List Event)
    (hall : ∀ j, j < ceilDiv data.length C →
      writeAnswer r wr (h0 ++ sentEvents wr ch C data j) ch (fragment C data j) = none) :
    ∀ (fuel k : Nat), k ≤ ceilDiv data.length C → ceilDiv data.length C ≤ k + fuel →
      printLoop r ch data (C : Int) wr fuel ((k * C : Nat) : Int)
          (h0 ++ sentEvents wr ch C data k) =
        some (.returned none, h0 ++ sentEvents wr ch C data (ceilDiv data.length C)) := by
  intro fuel
  induction fuel with
  | zero =>
    intro k hk1 hk2
    have hk : k = ceilDiv data.length C := by omega
    have hnot : ¬ k * C < data.length := by
      rw [← lt_ceilDiv_iff _ _ _ hC0]; omega
    rw [printLoop_done _ _ _ _ _ _ _ _ (by exact_mod_cast hnot), hk]
  | succ fuel ih =>
    intro k hk1 hk2
    rcases Nat.lt_or_ge k (ceilDiv data.length C) with hlt | hge
    · have hk : k * C < data.length := (lt_ceilDiv_iff _ _ _ hC0).1 hlt
      rw [printLoop_step r ch data C wr hC hL k hk, hall k hlt]
      have := ih (k + 1) hlt (by omega)
      simpa [sentEvents, List.append_assoc] using this
    · have hk : k = ceilDiv data.length C := by omega
      have hnot : ¬ k * C < data.length := by
        rw [← lt_ceilDiv_iff _ _ _ hC0]; omega
      rw [printLoop_done _ _ _ _ _ _ _ _ (by exact_mod_cast hnot), hk]

/-- When fragment `m` is the first whose write fails, the loop returns that error right after
the write of fragment `m`. -/
theorem printLoop_first_failure (r : Radio) (ch : DeviceCharacteristic) (data : List Byte)
    (C : Nat) (wr : Bool) (hC0 : 0 < C) (hC : (C : Int) < 2 ^ 63) (hL : data.length ≤ 2 ^ 62)
    (h0 : List Event) (m : Nat) (e : Err) (hm : m < ceilDiv data.length C)
    (hbefore : ∀ j, j < m →
      writeAnswer r wr (h0 ++ sentEvents wr ch C data j) ch (fragment C data j) = none)
    (hfail : writeAnswer r wr (h0 ++ sentEvents wr ch C data m) ch (fragment C data m) = some e) :
    ∀ (fuel k : Nat), k ≤ m → m < k + fuel →
      printLoop r ch data (C : Int) wr fuel ((k * C : Nat) : Int)
          (h0 ++ sentEvents wr ch C data k) =
        some (.returned (some e),
          h0 ++ sentEvents wr ch C data m ++ [writeEvent wr ch (fragment C data m)]) := by
  intro fuel
  induction fuel with
  | zero => intro k hk1 hk2; omega
  | succ fuel ih =>
    intro k hk1 hk2
    have hk : k * C < data.length := (lt_ceilDiv_iff _ _ _ hC0).1 (by omega)
    rw [printLoop_step r ch data C wr hC hL k hk]
    rcases Nat.lt_or_ge k m with hlt | hge
    · rw [hbefore k hlt]
      have := ih (k + 1) hlt (by omega)
      simpa [sentEvents, List.append_assoc] using this
    · have hkm : k = m := by omega
      subst hkm
      rw [hfail]

/-! ### Facts about fragments -/

theorem effectiveChunk_pos (chunkSize : Int) : 0 < effectiveChunk chunkSize := by
  unfold effectiveChunk
  split_ifs with h
  · decide
  · omega

theorem effectiveChunk_cast (chunkSize : Int) :
    (if chunkSize ≤ 0 then 180 else chunkSize) = ((effectiveChunk chunkSize : Nat) : Int) := by
  unfold effectiveChunk
  split_ifs with h
  · rfl
  · rw [Int.toNat_of_nonneg (by omega)]

theorem effectiveChunk_lt (chunkSize : Int) (hcs : chunkSize < 2 ^ 63) :
    ((effectiveChunk chunkSize : Nat) : Int) < 2 ^ 63 := by
  rw [← effectiveChunk_cast]
  split_ifs with h
  · decide
  · exact hcs

theorem fragment_eq (C : Nat) (data : List Byte) (k : Nat) :
    fragment C data k = (data.take ((k + 1) * C)).drop (k * C) := by
  unfold fragment
  rcases Nat.le_total ((k + 1) * C) data.length with h | h
  · rw [Nat.min_eq_left h]
  · rw [Nat.min_eq_right h, List.take_of_length_le h, List.take_of_length_le (le_refl _)]

theorem fragment_length (C : Nat) (data : List Byte) (k : Nat) :
    (fragment C data k).length = min ((k + 1) * C) data.length - k * C := by
  unfold fragment
  rw [List.length_drop, List.length_take]
  omega

theorem writePayloads_append (a b : List Event) :
    writePayloads (a ++ b) = writePayloads a ++ writePayloads b := by
  unfold writePayloads; rw [List.filterMap_append]

theorem writePayloads_sentEvents (wr : Bool) (ch : DeviceCharacteristic) (C : Nat)
    (data : List Byte) (k : Nat) :
    writePayloads (sentEvents wr ch C data k) = (List.range k).map (fragment C data) := by
  induction k with
  | zero => rfl
  | succ k ih =>
    have hw : writePayloads [writeEvent wr ch (fragment C data k), Event.sleep 10] =
        [fragment C data k] := by
      cases wr <;> rfl
    rw [sentEvents, writePayloads_append, ih, hw, List.range_succ, List.map_append]
    rfl

theorem writePayloads_writeEvent (wr : Bool) (ch : DeviceCharacteristic) (p : List Byte) :
    writePayloads [writeEvent wr ch p] = [p] := by
  cases wr <;> rfl

theorem issued_append (h x : List Event) : issued h (h ++ x) = x := by
  unfold issued; rw [List.drop_left]

/-- The first `m` fragments, concatenated, are the first `m * C` bytes of the payload. -/
theorem flatten_fragments (C : Nat) (data : List Byte) (m : Nat) :
    ((List.range m).map (fragment C data)).flatten = data.take (m * C) := by
  induction m with
  | zero => simp
  | succ m ih =>
    rw [List.range_succ, List.map_append, List.flatten_append, ih, List.map_singleton,
      List.flatten_singleton, fragment_eq]
    have hle : m * C ≤ (m + 1) * C := Nat.mul_le_mul_right C (Nat.le_succ m)
    have h1 : data.take (m * C) = (data.take ((m + 1) * C)).take (m * C) := by
      rw [List.take_take, Nat.min_eq_left hle]
    rw [h1, List.take_append_drop]

theorem ceilDiv_mul_ge (L C : Nat) (hC : 0 < C) : L ≤ ceilDiv L C * C := by
  have := (lt_ceilDiv_iff L C (ceilDiv L C) hC).not
  omega

/-- Every fragment but the last is full. -/
theorem fragment_length_full (C : Nat) (data : List Byte) (k : Nat) (hC : 0 < C)
    (hk : k + 1 < ceilDiv data.length C) : (fragment C data k).length = C := by
  have h1 : (k + 1) * C < data.length := (lt_ceilDiv_iff _ _ _ hC).1 hk
  have h2 : (k + 1) * C = k * C + C := Nat.succ_mul k C
  rw [fragment_length]
  omega

/-- The last fragment holds the remainder, or a full chunk when there is no remainder. -/
theorem fragment_length_last (C : Nat) (data : List Byte) (hC : 0 < C)
    (hL : 0 < data.length) :
    (fragment C data (ceilDiv data.length C - 1)).length =
      if data.length % C = 0 then C else data.length % C := by
  have hn : 0 < ceilDiv data.length C := by
    rw [lt_ceilDiv_iff _ _ _ hC]; simpa using hL
  have hlast : (ceilDiv data.length C - 1) * C < data.length :=
    (lt_ceilDiv_iff _ _ _ hC).1 (by omega)
  have hge := ceilDiv_mul_ge data.length C hC
  have hsplit : ceilDiv data.length C * C = (ceilDiv data.length C - 1) * C + C := by
    conv_lhs => rw [show ceilDiv data.length C = (ceilDiv data.length C - 1) + 1 by omega]
    exact Nat.succ_mul _ _
  rw [fragment_length]
  have hsub : (ceilDiv data.length C - 1 + 1) = ceilDiv data.length C := by omega
  rw [hsub, Nat.min_eq_right hge]
  -- write L = q * C + rem
  generalize hq : ceilDiv data.length C - 1 = q at *
  have hdm := Nat.div_add_mod data.length C
  have hmod := Nat.mod_lt data.length hC
  -- q * C < L ≤ q * C + C
  have hL' : data.length ≤ q * C + C := by omega
  split_ifs with hz
  · -- L is a multiple of C: L = (L / C) * C, so L = q * C + C
    have hLm : data.length = C * (data.length / C) := by omega
    have : q < data.length / C := by
      by_contra hcon
      have : data.length / C ≤ q := by omega
      have := Nat.mul_le_mul_left C this
      rw [Nat.mul_comm C q] at this
      omega
    have : C * (q + 1) ≤ C * (data.length / C) := Nat.mul_le_mul_left C this
    rw [Nat.mul_add, Nat.mul_comm C q] at this
    omega
  · have hqd : q = data.length / C := by
      have h1 : q ≤ data.length / C := by
        rw [Nat.le_div_iff_mul_le hC]; omega
      have h2 : data.length / C ≤ q := by
        by_contra hcon
        have : q + 1 ≤ data.length / C := by omega
        have := Nat.mul_le_mul_left C this
        rw [Nat.mul_add, Nat.mul_comm C q] at this
        omega
      omega
    rw [hqd, Nat.mul_comm]
    omega

/-! ### `Print` once the target is resolved -/

/-- On a connected session whose service and characteristic resolve, `Print` is its write
loop, started at offset 0 after the two discovery calls. -/
theorem Print_resolved (r : Radio) (c : Client) (serviceUUID charUUID : GoString)
    (data : List Byte) (chunkSize : Int) (wr : Bool) (h : List Event) (su cu : UUID)
    (svc : DeviceService) (svcs : List DeviceService) (ch : DeviceCharacteristic)
    (chs : List DeviceCharacteristic) (hconn : c.connected = true)
    (hsu : r.parseUUID serviceUUID = .ok su) (hcu : r.parseUUID charUUID = .ok cu)
    (hsvc : r.discoverServices h c.dev (some [su]) = .ok (svc :: svcs))
    (hch : r.discoverCharacteristics (h ++ [Event.discoverServices c.dev (some [su])]) svc
      (some [cu]) = .ok (ch :: chs)) :
    c.Print r serviceUUID charUUID data chunkSize wr h =
      (printLoop r ch data ((effectiveChunk chunkSize : Nat) : Int) wr data.length
        (((0 * effectiveChunk chunkSize : Nat)) : Int)
        (h ++ resolveEvents c su svc cu ++
          sentEvents wr ch (effectiveChunk chunkSize) data 0)).map
        fun res => ⟨res.1, c, res.2⟩ := by
  unfold Client.Print
  rw [hconn]
  simp only [Bool.not_true, Bool.false_eq_true, if_false, hsu, hcu, hsvc, hch,
    effectiveChunk_cast, resolveEvents, sentEvents, List.append_nil, Nat.zero_mul,
    Nat.cast_zero, List.append_assoc, List.singleton_append]

/-- When every write succeeds, `Print` returns `nil`, leaves the session untouched and its
history is extended by the discovery calls and all fragments in order. -/
theorem Print_all_ok (r : Radio) (c : Client) (serviceUUID charUUID : GoString)
    (data : List Byte) (chunkSize : Int) (wr : Bool) (h : List Event) (su cu : UUID)
    (svc : DeviceService) (svcs : List DeviceService) (ch : DeviceCharacteristic)
    (chs : List DeviceCharacteristic) (hconn : c.connected = true)
    (hsu : r.parseUUID serviceUUID = .ok su) (hcu : r.parseUUID charUUID = .ok cu)
    (hsvc : r.discoverServices h c.dev (some [su]) = .ok (svc :: svcs))
    (hch : r.discoverCharacteristics (h ++ [Event.discoverServices c.dev (some [su])]) svc
      (some [cu]) = .ok (ch :: chs))
    (hcs : chunkSize < 2 ^ 63) (hL : data.length ≤ 2 ^ 62)
    (hall : ∀ j, j < ceilDiv data.length (effectiveChunk chunkSize) →
      writeAnswer r wr
        (h ++ resolveEvents c su svc cu ++ sentEvents wr ch (effectiveChunk chunkSize) data j)
        ch (fragment (effectiveChunk chunkSize) data j) = none) :
    c.Print r serviceUUID charUUID data chunkSize wr h =
      some ⟨.returned none, c,
        h ++ (resolveEvents c su svc cu ++
          sentEvents wr ch (effectiveChunk chunkSize) data
            (ceilDiv data.length (effectiveChunk chunkSize)))⟩ := by
  have hC0 := effectiveChunk_pos chunkSize
  rw [Print_resolved r c serviceUUID charUUID data chunkSize wr h su cu svc svcs ch chs hconn
    hsu hcu hsvc hch,
    printLoop_all_ok r ch data (effectiveChunk chunkSize) wr hC0
      (effectiveChunk_lt chunkSize hcs) hL (h ++ resolveEvents c su svc cu) hall data.length 0
      (Nat.zero_le _)]
  · simp only [Option.map_some', List.append_assoc]
  · have hn : ceilDiv data.length (effectiveChunk chunkSize) ≤ data.length := by
      by_contra hcon
      have h1 := (lt_ceilDiv_iff data.length (effectiveChunk chunkSize) data.length hC0).1
        (by omega)
      have h2 : data.length * 1 ≤ data.length * effectiveChunk chunkSize :=
        Nat.mul_le_mul_left _ hC0
      omega
    omega

/-- When fragment `m` is the first whose write fails, with error `e`, `Print` returns `e`,
leaves the session untouched and its history ends with the write of fragment `m`. -/
theorem Print_first_failure (r : Radio) (c : Client) (serviceUUID charUUID : GoString)
    (data : List Byte) (chunkSize : Int) (wr : Bool) (h : List Event) (su cu : UUID)
    (svc : DeviceService) (svcs : List DeviceService) (ch : DeviceCharacteristic)
    (chs : List DeviceCharacteristic) (hconn : c.connected = true)
    (hsu : r.parseUUID serviceUUID = .ok su) (hcu : r.parseUUID charUUID = .ok cu)
    (hsvc : r.discoverServices h c.dev (some [su]) = .ok (svc :: svcs))
    (hch : r.discoverCharacteristics (h ++ [Event.discoverServices c.dev (some [su])]) svc
      (some [cu]) = .ok (ch :: chs))
    (hcs : chunkSize < 2 ^ 63) (hL : data.length ≤ 2 ^ 62) (m : Nat) (e : Err)
    (hm : m < ceilDiv data.length (effectiveChunk chunkSize))
    (hbefore : ∀ j, j < m →
      writeAnswer r wr
        (h ++ resolveEvents c su svc cu ++ sentEvents wr ch (effectiveChunk chunkSize) data j)
        ch (fragment (effectiveChunk chunkSize) data j) = none)
    (hfail : writeAnswer r wr
        (h ++ resolveEvents c su svc cu ++ sentEvents wr ch (effectiveChunk chunkSize) data m)
        ch (fragment (effectiveChunk chunkSize) data m) = some e) :
    c.Print r serviceUUID charUUID data chunkSize wr h =
      some ⟨.returned (some e), c,
        h ++ (resolveEvents c su svc cu ++
          (sentEvents wr ch (effectiveChunk chunkSize) data m ++
            [writeEvent wr ch (fragment (effectiveChunk chunkSize) data m)]))⟩ := by
  have hC0 := effectiveChunk_pos chunkSize
  rw [Print_resolved r c serviceUUID charUUID data chunkSize wr h su cu svc svcs ch chs hconn
    hsu hcu hsvc hch,
    printLoop_first_failure r ch data (effectiveChunk chunkSize) wr hC0
      (effectiveChunk_lt chunkSize hcs) hL (h ++ resolveEvents c su svc cu) m e hm hbefore
      hfail data.length 0 (Nat.zero_le _)]
  · simp only [Option.map_some', List.append_assoc]
  · have hn : ceilDiv data.length (effectiveChunk chunkSize) ≤ data.length := by
      by_contra hcon
      have h1 := (lt_ceilDiv_iff data.length (effectiveChunk chunkSize) data.length hC0).1
        (by omega)
      have h2 : data.length * 1 ≤ data.length * effectiveChunk chunkSize :=
        Nat.mul_le_mul_left _ hC0
      omega
    omega

/-- `Print` always returns: for a Go `int` chunk size and a payload of at most `2 ^ 62` bytes
the iteration bound is never exhausted and the slice expression never panics. -/
theorem Print_returns (r : Radio) (c : Client) (serviceUUID charUUID : GoString)
    (data : List Byte) (chunkSize : Int) (wr : Bool) (h : List Event)
    (hcs : chunkSize < 2 ^ 63) (hL : data.length ≤ 2 ^ 62) :
    ∃ err c' t, c.Print r serviceUUID charUUID data chunkSize wr h =
      some ⟨.returned err, c', t⟩ := by
  cases hconn : c.connected with
  | false => exact ⟨some .notConnected, c, h, by simp [Client.Print, hconn]⟩
  | true =>
    cases hsu : r.parseUUID serviceUUID with
    | error e => exact ⟨some e, c, h, by simp [Client.Print, hconn, hsu]⟩
    | ok su =>
      cases hcu : r.parseUUID charUUID with
      | error e => exact ⟨some e, c, h, by simp [Client.Print, hconn, hsu, hcu]⟩
      | ok cu =>
        cases hsvc : r.discoverServices h c.dev (some [su]) with
        | error e =>
          exact ⟨some e, c, h ++ [Event.discoverServices c.dev (some [su])], by
            simp [Client.Print, hconn, hsu, hcu, hsvc]⟩
        | ok svcs =>
          cases svcs with
          | nil =>
            exact ⟨some .serviceNotFound, c, h ++ [Event.discoverServices c.dev (some [su])], by
              simp [Client.Print, hconn, hsu, hcu, hsvc]⟩
          | cons svc svcs =>
            cases hch : r.discoverCharacteristics
                (h ++ [Event.discoverServices c.dev (some [su])]) svc (some [cu]) with
            | error e =>
              exact ⟨some e, c, h ++ resolveEvents c su svc cu, by
                simp [Client.Print, hconn, hsu, hcu, hsvc, hch, resolveEvents]⟩
            | ok chs =>
              cases chs with
              | nil =>
                exact ⟨some .characteristicNotFound, c, h ++ resolveEvents c su svc cu, by
                  simp [Client.Print, hconn, hsu, hcu, hsvc, hch, resolveEvents]⟩
              | cons ch chs =>
                by_cases hall : ∀ j, j < ceilDiv data.length (effectiveChunk chunkSize) →
                    writeAnswer r wr
                      (h ++ resolveEvents c su svc cu ++
                        sentEvents wr ch (effectiveChunk chunkSize) data j)
                      ch (fragment (effectiveChunk chunkSize) data j) = none
                · exact ⟨_, _, _, Print_all_ok r c serviceUUID charUUID data chunkSize wr h su
                    cu svc svcs ch chs hconn hsu hcu hsvc hch hcs hL hall⟩
                · have hex : ∃ j, j < ceilDiv data.length (effectiveChunk chunkSize) ∧
                      writeAnswer r wr
                        (h ++ resolveEvents c su svc cu ++
                          sentEvents wr ch (effectiveChunk chunkSize) data j)
                        ch (fragment (effectiveChunk chunkSize) data j) ≠ none := by
                    push_neg at hall
                    exact hall
                  classical
                  have hm := Nat.find_spec hex
                  have hmin := fun j (hj : j < Nat.find hex) => Nat.find_min hex hj
                  obtain ⟨e, he⟩ := Option.ne_none_iff_exists'.1 hm.2
                  refine ⟨_, _, _, Print_first_failure r c serviceUUID charUUID data chunkSize
                    wr h su cu svc svcs ch chs hconn hsu hcu hsvc hch hcs hL (Nat.find hex) e
                    hm.1 ?_ he⟩
                  intro j hj
                  have := hmin j hj
                  by_contra hne
                  exact this ⟨by omega, hne⟩

/-! ### Claims about `Print` -/

/-- C1: on a connected session whose target service and characteristic resolve and whose
writes all succeed, `Print` returns `nil` after issuing exactly `ceil(L / C)` writes, where
`C` is `chunkSize` if positive and 180 otherwise; every write but the last has exactly `C`
bytes, the last has `L mod C` bytes (`C` when `L` is a positive multiple of `C`), and for
`L = 0` no write is issued.  (`chunkSize` is a Go `int`, and the payload is a slice held in
memory, hence of at most `2 ^ 62` bytes.) -/
theorem Print_write_count_and_sizes (r : Radio) (c : Client) (serviceUUID charUUID : GoString)
    (data : List Byte) (chunkSize : Int) (wr : Bool) (h : List Event) (su cu : UUID)
    (svc : DeviceService) (svcs : List DeviceService) (ch : DeviceCharacteristic)
    (chs : List DeviceCharacteristic) (hconn : c.connected = true)
    (hsu : r.parseUUID serviceUUID = .ok su) (hcu : r.parseUUID charUUID = .ok cu)
    (hsvc : r.discoverServices h c.dev (some [su]) = .ok (svc :: svcs))
    (hch : r.discoverCharacteristics (h ++ [Event.discoverServices c.dev (some [su])]) svc
      (some [cu]) = .ok (ch :: chs))
    (hcs : chunkSize < 2 ^ 63) (hL : data.length ≤ 2 ^ 62)
    (hall : ∀ j, j < ceilDiv data.length (effectiveChunk chunkSize) →
      writeAnswer r wr
        (h ++ resolveEvents c su svc cu ++ sentEvents wr ch (effectiveChunk chunkSize) data j)
        ch (fragment (effectiveChunk chunkSize) data j) = none) :
    ∃ res, c.Print r serviceUUID charUUID data chunkSize wr h = some res ∧
      res.ret = .returned none ∧
      (writePayloads (issued h res.trace)).length =
        ceilDiv data.length (effectiveChunk chunkSize) ∧
      (∀ k, k + 1 < ceilDiv data.length (effectiveChunk chunkSize) →
        ((writePayloads (issued h res.trace))[k]?).map List.length =
          some (effectiveChunk chunkSize)) ∧
      (0 < data.length →
        ((writePayloads (issued h res.trace))[
            ceilDiv data.length (effectiveChunk chunkSize) - 1]?).map List.length =
          some (if data.length % effectiveChunk chunkSize = 0 then effectiveChunk chunkSize
            else data.length % effectiveChunk chunkSize)) ∧
      (data.length = 0 → writePayloads (issued h res.trace) = []) := by
  have hC0 := effectiveChunk_pos chunkSize
  have hws : writePayloads (resolveEvents c su svc cu ++
      sentEvents wr ch (effectiveChunk chunkSize) data
        (ceilDiv data.length (effectiveChunk chunkSize))) =
      (List.range (ceilDiv data.length (effectiveChunk chunkSize))).map
        (fragment (effectiveChunk chunkSize) data) := by
    rw [writePayloads_append, writePayloads_sentEvents]; rfl
  refine ⟨_, Print_all_ok r c serviceUUID charUUID data chunkSize wr h su cu svc svcs ch chs
    hconn hsu hcu hsvc hch hcs hL hall, rfl, ?_, ?_, ?_, ?_⟩
  · simp only [issued_append, hws, List.length_map, List.length_range]
  · intro k hk
    simp only [issued_append, hws]
    rw [List.getElem?_map, List.getElem?_range (by omega)]
    simp only [Option.map_some', fragment_length_full _ data k hC0 hk]
  · intro hpos
    have hn : 0 < ceilDiv data.length (effectiveChunk chunkSize) := by
      rw [lt_ceilDiv_iff _ _ _ hC0]; simpa using hpos
    simp only [issued_append, hws]
    rw [List.getElem?_map, List.getElem?_range (by omega)]
    simp only [Option.map_some', fragment_length_last _ data hC0 hpos]
  · intro hz
    have hn : ceilDiv data.length (effectiveChunk chunkSize) = 0 := by
      have := (lt_ceilDiv_iff data.length (effectiveChunk chunkSize) 0 hC0).not
      omega
    simp only [issued_append, hws]
    rw [hn]
    rfl

/-- C2: when all writes succeed, the `k`-th write issued by `Print` carries exactly the bytes
`payload[k*C .. min((k+1)*C, L))`, for every `k` below `ceil(L / C)`, and the concatenation of
the written fragments in write order is the payload. -/
theorem Print_fragments_in_order (r : Radio) (c : Client) (serviceUUID charUUID : GoString)
    (data : List Byte) (chunkSize : Int) (wr : Bool) (h : List Event) (su cu : UUID)
    (svc : DeviceService) (svcs : List DeviceService) (ch : DeviceCharacteristic)
    (chs : List DeviceCharacteristic) (hconn : c.connected = true)
    (hsu : r.parseUUID serviceUUID = .ok su) (hcu : r.parseUUID charUUID = .ok cu)
    (hsvc : r.discoverServices h c.dev (some [su]) = .ok (svc :: svcs))
    (hch : r.discoverCharacteristics (h ++ [Event.discoverServices c.dev (some [su])]) svc
      (some [cu]) = .ok (ch :: chs))
    (hcs : chunkSize < 2 ^ 63) (hL : data.length ≤ 2 ^ 62)
    (hall : ∀ j, j < ceilDiv data.length (effectiveChunk chunkSize) →
      writeAnswer r wr
        (h ++ resolveEvents c su svc cu ++ sentEvents wr ch (effectiveChunk chunkSize) data j)
        ch (fragment (effectiveChunk chunkSize) data j) = none) :
    ∃ res, c.Print r serviceUUID charUUID data chunkSize wr h = some res ∧
      (writePayloads (issued h res.trace)).length =
        ceilDiv data.length (effectiveChunk chunkSize) ∧
      (∀ k, k < ceilDiv data.length (effectiveChunk chunkSize) →
        (writePayloads (issued h res.trace))[k]? =
          some ((data.take (min ((k + 1) * effectiveChunk chunkSize) data.length)).drop
            (k * effectiveChunk chunkSize))) ∧
      (writePayloads (issued h res.trace)).flatten = data := by
  have hC0 := effectiveChunk_pos chunkSize
  have hws : writePayloads (resolveEvents c su svc cu ++
      sentEvents wr ch (effectiveChunk chunkSize) data
        (ceilDiv data.length (effectiveChunk chunkSize))) =
      (List.range (ceilDiv data.length (effectiveChunk chunkSize))).map
        (fragment (effectiveChunk chunkSize) data) := by
    rw [writePayloads_append, writePayloads_sentEvents]; rfl
  refine ⟨_, Print_all_ok r c serviceUUID charUUID data chunkSize wr h su cu svc svcs ch chs
    hconn hsu hcu hsvc hch hcs hL hall, ?_, ?_, ?_⟩
  · simp only [issued_append, hws, List.length_map, List.length_range]
  · intro k hk
    simp only [issued_append, hws]
    rw [List.getElem?_map, List.getElem?_range hk]
    rfl
  · simp only [issued_append, hws]
    rw [flatten_fragments, List.take_of_length_le (ceilDiv_mul_ge _ _ hC0)]

/-- C3: when fragment `m` is the first whose write fails, with error `e`, `Print` returns
exactly `e`; the writes it has issued are one write for each of the fragments `0..m`, in order,
and nothing else (no write after fragment `m`, no retry, no resend); the session is
unchanged. -/
theorem Print_stops_at_first_failure (r : Radio) (c : Client)
    (serviceUUID charUUID : GoString) (data : List Byte) (chunkSize : Int) (wr : Bool)
    (h : List Event) (su cu : UUID) (svc : DeviceService) (svcs : List DeviceService)
    (ch : DeviceCharacteristic) (chs : List DeviceCharacteristic)
    (hconn : c.connected = true)
    (hsu : r.parseUUID serviceUUID = .ok su) (hcu : r.parseUUID charUUID = .ok cu)
    (hsvc : r.discoverServices h c.dev (some [su]) = .ok (svc :: svcs))
    (hch : r.discoverCharacteristics (h ++ [Event.discoverServices c.dev (some [su])]) svc
      (some [cu]) = .ok (ch :: chs))
    (hcs : chunkSize < 2 ^ 63) (hL : data.length ≤ 2 ^ 62) (m : Nat) (e : Err)
    (hm : m < ceilDiv data.length (effectiveChunk chunkSize))
    (hbefore : ∀ j, j < m →
      writeAnswer r wr
        (h ++ resolveEvents c su svc cu ++ sentEvents wr ch (effectiveChunk chunkSize) data j)
        ch (fragment (effectiveChunk chunkSize) data j) = none)
    (hfail : writeAnswer r wr
        (h ++ resolveEvents c su svc cu ++ sentEvents wr ch (effectiveChunk chunkSize) data m)
        ch (fragment (effectiveChunk chunkSize) data m) = some e) :
    ∃ res, c.Print r serviceUUID charUUID data chunkSize wr h = some res ∧
      res.ret = .returned (some e) ∧ res.client = c ∧
      issued h res.trace =
        resolveEvents c su svc cu ++
          (sentEvents wr ch (effectiveChunk chunkSize) data m ++
            [writeEvent wr ch (fragment (effectiveChunk chunkSize) data m)]) ∧
      writePayloads (issued h res.trace) =
        (List.range (m + 1)).map (fragment (effectiveChunk chunkSize) data) := by
  refine ⟨_, Print_first_failure r c serviceUUID charUUID data chunkSize wr h su cu svc svcs
    ch chs hconn hsu hcu hsvc hch hcs hL m e hm hbefore hfail, rfl, rfl, ?_, ?_⟩
  · simp only [issued_append]
  · simp only [issued_append]
    rw [writePayloads_append, writePayloads_append, writePayloads_sentEvents,
      writePayloads_writeEvent, List.range_succ, List.map_append]
    rfl

/-- Witness for C1: five bytes in chunks of two on `okRadio` are written as three fragments of
sizes 2, 2 and 1. -/
theorem Print_write_count_and_sizes_witness :
    (2 : Int) < 2 ^ 63 ∧ ([1, 2, 3, 4, 5] : List Byte).length ≤ 2 ^ 62 ∧
    ∃ res, Client.Print okRadio ⟨⟨1⟩, true⟩ [] [] [1, 2, 3, 4, 5] 2 true [] = some res ∧
      res.ret = .returned none ∧
      (writePayloads (issued [] res.trace)).length = ceilDiv 5 (effectiveChunk 2) ∧
      (∀ k, k + 1 < ceilDiv 5 (effectiveChunk 2) →
        ((writePayloads (issued [] res.trace))[k]?).map List.length =
          some (effectiveChunk 2)) ∧
      (0 < 5 →
        ((writePayloads (issued [] res.trace))[ceilDiv 5 (effectiveChunk 2) - 1]?).map
            List.length =
          some (if 5 % effectiveChunk 2 = 0 then effectiveChunk 2 else 5 % effectiveChunk 2)) ∧
      (5 = 0 → writePayloads (issued [] res.trace) = []) :=
  ⟨by decide, by decide,
    Print_write_count_and_sizes okRadio ⟨⟨1⟩, true⟩ [] [] [1, 2, 3, 4, 5] 2 true [] ⟨0⟩ ⟨0⟩
      ⟨7, ⟨4⟩⟩ [] ⟨9, ⟨5⟩, 8⟩ [] rfl rfl rfl rfl rfl (by decide) (by decide)
      (fun _ _ => rfl)⟩

/-- Witness for C2: five bytes in chunks of two on `okRadio`. -/
theorem Print_fragments_in_order_witness :
    ∃ res, Client.Print okRadio ⟨⟨1⟩, true⟩ [] [] [1, 2, 3, 4, 5] 2 false [] = some res ∧
      (writePayloads (issued [] res.trace)).length = ceilDiv 5 (effectiveChunk 2) ∧
      (∀ k, k < ceilDiv 5 (effectiveChunk 2) →
        (writePayloads (issued [] res.trace))[k]? =
          some ((([1, 2, 3, 4, 5] : List Byte).take (min ((k + 1) * effectiveChunk 2) 5)).drop
            (k * effectiveChunk 2))) ∧
      (writePayloads (issued [] res.trace)).flatten = [1, 2, 3, 4, 5] :=
  Print_fragments_in_order okRadio ⟨⟨1⟩, true⟩ [] [] [1, 2, 3, 4, 5] 2 false [] ⟨0⟩ ⟨0⟩
    ⟨7, ⟨4⟩⟩ [] ⟨9, ⟨5⟩, 8⟩ [] rfl rfl rfl rfl rfl (by decide) (by decide) (fun _ _ => rfl)

/-- Witness for C3: on `secondWriteFails` the write of fragment 1 is the first to fail; `Print`
returns its error after the writes of fragments 0 and 1. -/
theorem Print_stops_at_first_failure_witness :
    ∃ res, Client.Print secondWriteFails ⟨⟨1⟩, true⟩ [] [] [1, 2, 3, 4, 5] 2 true [] =
        some res ∧
      res.ret = .returned (some (.adapter 5)) ∧ res.client = ⟨⟨1⟩, true⟩ ∧
      issued [] res.trace =
        resolveEvents ⟨⟨1⟩, true⟩ ⟨0⟩ ⟨7, ⟨4⟩⟩ ⟨0⟩ ++
          (sentEvents true ⟨9, ⟨5⟩, 8⟩ (effectiveChunk 2) [1, 2, 3, 4, 5] 1 ++
            [writeEvent true ⟨9, ⟨5⟩, 8⟩ (fragment (effectiveChunk 2) [1, 2, 3, 4, 5] 1)]) ∧
      writePayloads (issued [] res.trace) =
        (List.range (1 + 1)).map (fragment (effectiveChunk 2) [1, 2, 3, 4, 5]) :=
  Print_stops_at_first_failure secondWriteFails ⟨⟨1⟩, true⟩ [] [] [1, 2, 3, 4, 5] 2 true []
    ⟨0⟩ ⟨0⟩ ⟨7, ⟨4⟩⟩ [] ⟨9, ⟨5⟩, 8⟩ [] rfl rfl rfl rfl rfl (by decide) (by decide) 1
    (.adapter 5) (by decide)
    (fun j hj => by
      have hj0 : j = 0 := by omega
      subst hj0
      rfl)
    rfl

/-! ### Address normalisation -/

theorem isHexChar_iff_mem (c : Char) : isHexChar c = true ↔ c ∈ hexDigits := by
  constructor
  · intro h
    have hc : c = Char.ofNat c.toNat := (Char.ofNat_toNat c).symm
    simp only [isHexChar, Bool.or_eq_true, Bool.and_eq_true, decide_eq_true_eq] at h
    rw [hc]
    rcases h with (⟨h1, h2⟩ | ⟨h1, h2⟩) | ⟨h1, h2⟩
    · interval_cases c.toNat <;> decide
    · interval_cases c.toNat <;> decide
    · interval_cases c.toNat <;> decide
  · revert c
    decide

theorem utf8Size_of_hex : ∀ c ∈ hexDigits, c.utf8Size = 1 := by decide

theorem goLen_eq_length_of_hex (g : GoString) (h : ∀ c ∈ g, c ∈ hexDigits) :
    goLen g = g.length := by
  induction g with
  | nil => rfl
  | cons c cs ih =>
    have hc := utf8Size_of_hex c (h c (List.mem_cons_self _ _))
    have := ih (fun d hd => h d (List.mem_cons_of_mem _ hd))
    simp only [goLen, List.map_cons, List.sum_cons, List.length_cons] at *
    omega

theorem partOk_iff (g : GoString) :
    (goLen g = 2 ∧ hexDecodeOk g = true) ↔ (g.length = 2 ∧ ∀ c ∈ g, c ∈ hexDigits) := by
  unfold hexDecodeOk
  simp only [Bool.and_eq_true, beq_iff_eq, List.all_eq_true, isHexChar_iff_mem]
  constructor
  · rintro ⟨h2, _, hall⟩
    exact ⟨by rw [← goLen_eq_length_of_hex g hall]; exact h2, hall⟩
  · rintro ⟨h2, hall⟩
    have := goLen_eq_length_of_hex g hall
    exact ⟨by omega, by omega, hall⟩

theorem partsOk_iff (gs : List GoString) :
    partsOk gs = true ↔ ∀ g ∈ gs, g.length = 2 ∧ ∀ c ∈ g, c ∈ hexDigits := by
  induction gs with
  | nil => simp [partsOk]
  | cons g gs ih =>
    have hg := partOk_iff g
    rw [partsOk]
    by_cases h1 : goLen g = 2
    · by_cases h2 : hexDecodeOk g = true
      · simp only [h1, h2, ne_eq, not_true_eq_false, if_false, Bool.not_true, Bool.false_eq_true,
          ih, List.mem_cons, forall_eq_or_imp]
        exact ⟨fun h => ⟨hg.1 ⟨h1, h2⟩, h⟩, fun h => h.2⟩
      · have h2' : hexDecodeOk g = false := by simpa using h2
        simp only [h1, h2', ne_eq, not_true_eq_false, if_false, Bool.not_false, if_true,
          List.mem_cons, forall_eq_or_imp, Bool.false_eq_true, false_iff, not_and]
        intro h
        exact absurd (hg.2 h).2 h2
    · simp only [h1, ne_eq, not_false_eq_true, if_true, List.mem_cons, forall_eq_or_imp,
        Bool.false_eq_true, false_iff, not_and]
      intro h
      exact absurd (hg.2 h).1 h1

/-- The checks of `normalizeAddress` are the specification's validity condition. -/
theorem normalizeAddress_eq (tbl : Char → Char) (raw : GoString) :
    normalizeAddress tbl raw =
      if SixHexGroups (transformed tbl raw) then .ok (transformed tbl raw)
      else .error (.invalidAddressFormat raw) := by
  unfold normalizeAddress SixHexGroups
  simp only [← partsOk_iff]
  show (if (split ':' (transformed tbl raw)).length ≠ 6 then _ else
    if (!partsOk (split ':' (transformed tbl raw))) = true then _ else
      Except.ok (transformed tbl raw)) = _
  by_cases h1 : (split ':' (transformed tbl raw)).length = 6
  · by_cases h2 : partsOk (split ':' (transformed tbl raw)) = true
    · simp [h1, h2]
    · simp [h1, h2]
  · simp [h1]

/-- C4: `NormalizeAddress(raw)` succeeds, returning the transformed string (whitespace
trimmed, upper-cased, `-` replaced by `:`), exactly when that string splits on `:` into
exactly 6 groups of exactly 2 hexadecimal digits each, and fails with the invalid-address
error exactly when it does not. -/
theorem NormalizeAddress_fails_iff (tbl : Char → Char) (raw : GoString) :
    (NormalizeAddress tbl raw = .error (.invalidAddressFormat raw) ↔
      ¬ SixHexGroups (transformed tbl raw)) ∧
    (NormalizeAddress tbl raw = .ok (transformed tbl raw) ↔
      SixHexGroups (transformed tbl raw)) ∧
    (∀ y, NormalizeAddress tbl raw = .ok y ↔
      (y = transformed tbl raw ∧ SixHexGroups (transformed tbl raw))) ∧
    ((∃ e, NormalizeAddress tbl raw = .error e) ↔ ¬ SixHexGroups (transformed tbl raw)) := by
  unfold NormalizeAddress
  rw [normalizeAddress_eq]
  by_cases h : SixHexGroups (transformed tbl raw)
  · simp only [h, if_true, not_true_eq_false, iff_false, iff_true, and_true, true_and]
    refine ⟨by simp, ?_, by simp⟩
    intro y
    constructor
    · intro hy; injection hy with hy; exact hy.symm
    · intro hy; rw [hy]
  · simp only [h, if_false, not_false_eq_true, iff_true, iff_false, and_false, true_and]
    refine ⟨by simp, by simp, ⟨_, rfl⟩⟩

/-- The table of `TestNormalizeAddress` in `ble_test.go`. -/
theorem TestNormalizeAddress :
    NormalizeAddress id "66:22:B6:5C:5C:3C".toList = .ok "66:22:B6:5C:5C:3C".toList ∧
    NormalizeAddress id "66-22-b6-5c-5c-3c".toList = .ok "66:22:B6:5C:5C:3C".toList ∧
    NormalizeAddress id " 66:22:B6:5C:5C:3C ".toList = .ok "66:22:B6:5C:5C:3C".toList ∧
    NormalizeAddress id "66:22:B6:5C:3C".toList =
      .error (.invalidAddressFormat "66:22:B6:5C:3C".toList) ∧
    NormalizeAddress id "66:22:B6:5C:5C:ZZ".toList =
      .error (.invalidAddressFormat "66:22:B6:5C:5C:ZZ".toList) := by
  decide

/-! ### Splitting and joining -/

theorem split_no_sep (sep : Char) (g : GoString) (h : sep ∉ g) : split sep g = [g] := by
  induction g with
  | nil => rfl
  | cons c cs ih =>
    have hc : c ≠ sep := fun hc => h (hc ▸ List.mem_cons_self _ _)
    have hcs : sep ∉ cs := fun hm => h (List.mem_cons_of_mem _ hm)
    rw [split, if_neg hc, ih hcs]

theorem split_append_sep (sep : Char) (g rest : GoString) (h : sep ∉ g) :
    split sep (g ++ sep :: rest) = g :: split sep rest := by
  induction g with
  | nil => simp [split]
  | cons c cs ih =>
    have hc : c ≠ sep := fun hc => h (hc ▸ List.mem_cons_self _ _)
    have hcs : sep ∉ cs := fun hm => h (List.mem_cons_of_mem _ hm)
    rw [List.cons_append, split, if_neg hc, ih hcs]

theorem intercalate_cons_cons (sep : Char) (g g' : GoString) (gs : List GoString) :
    List.intercalate [sep] (g :: g' :: gs) = g ++ sep :: List.intercalate [sep] (g' :: gs) := by
  simp [List.intercalate, List.intersperse]

theorem intercalate_single (sep : Char) (g : GoString) : List.intercalate [sep] [g] = g := by
  simp [List.intercalate, List.intersperse]

/-- Splitting a joined list of separator-free groups gives the groups back. -/
theorem split_intercalate (sep : Char) (gs : List GoString) (hne : gs ≠ [])
    (h : ∀ g ∈ gs, sep ∉ g) : split sep (List.intercalate [sep] gs) = gs := by
  induction gs with
  | nil => exact absurd rfl hne
  | cons g rest ih =>
    cases rest with
    | nil => rw [intercalate_single, split_no_sep sep g (h g (List.mem_cons_self _ _))]
    | cons g' rest' =>
      rw [intercalate_cons_cons, split_append_sep sep g _ (h g (List.mem_cons_self _ _)),
        ih (List.cons_ne_nil _ _) (fun x hx => h x (List.mem_cons_of_mem _ hx))]

/-- Every character of a joined list is the separator or a character of a group. -/
theorem mem_intercalate (sep : Char) (gs : List GoString) (c : Char)
    (hc : c ∈ List.intercalate [sep] gs) : c = sep ∨ ∃ g ∈ gs, c ∈ g := by
  induction gs with
  | nil => simp [List.intercalate, List.intersperse] at hc
  | cons g rest ih =>
    cases rest with
    | nil =>
      rw [intercalate_single] at hc
      exact Or.inr ⟨g, List.mem_cons_self _ _, hc⟩
    | cons g' rest' =>
      rw [intercalate_cons_cons, List.mem_append, List.mem_cons] at hc
      rcases hc with hc | hc | hc
      · exact Or.inr ⟨g, List.mem_cons_self _ _, hc⟩
      · exact Or.inl hc
      · rcases ih hc with h1 | ⟨x, hx, hcx⟩
        · exact Or.inl h1
        · exact Or.inr ⟨x, List.mem_cons_of_mem _ hx, hcx⟩

/-- Every character of a string is the separator or a character of one of its pieces. -/
theorem mem_split (sep : Char) (s : GoString) (c : Char) (hc : c ∈ s) :
    c = sep ∨ ∃ g ∈ split sep s, c ∈ g := by
  induction s with
  | nil => simp at hc
  | cons d ds ih =>
    rw [split]
    by_cases hd : d = sep
    · rw [if_pos hd]
      rcases List.mem_cons.1 hc with h1 | h1
      · exact Or.inl (h1.trans hd)
      · rcases ih h1 with h2 | ⟨g, hg, hcg⟩
        · exact Or.inl h2
        · exact Or.inr ⟨g, List.mem_cons_of_mem _ hg, hcg⟩
    · rw [if_neg hd]
      cases hsp : split sep ds with
      | nil =>
        rcases List.mem_cons.1 hc with h1 | h1
        · exact Or.inr ⟨[d], by simp, by simp [h1]⟩
        · rcases ih h1 with h2 | ⟨g, hg, _⟩
          · exact Or.inl h2
          · rw [hsp] at hg; simp at hg
      | cons g gs =>
        rcases List.mem_cons.1 hc with h1 | h1
        · exact Or.inr ⟨d :: g, by simp, by simp [h1]⟩
        · rcases ih h1 with h2 | ⟨g2, hg2, hcg2⟩
          · exact Or.inl h2
          · rw [hsp] at hg2
            rcases List.mem_cons.1 hg2 with h3 | h3
            · exact Or.inr ⟨d :: g, by simp, by rw [h3] at hcg2; simp [hcg2]⟩
            · exact Or.inr ⟨g2, by simp [h3], hcg2⟩

/-! ### Trimming -/

theorem dropWhile_all (p : Char → Bool) (l : GoString) (h : ∀ c ∈ l, p c = true) :
    l.dropWhile p = [] := by
  induction l with
  | nil => rfl
  | cons c cs ih =>
    rw [List.dropWhile_cons_of_pos (h c (List.mem_cons_self _ _))]
    exact ih (fun d hd => h d (List.mem_cons_of_mem _ hd))

theorem dropWhile_append_all (p : Char → Bool) (l rest : GoString)
    (h : ∀ c ∈ l, p c = true) : (l ++ rest).dropWhile p = rest.dropWhile p := by
  induction l with
  | nil => rfl
  | cons c cs ih =>
    rw [List.cons_append, List.dropWhile_cons_of_pos (h c (List.mem_cons_self _ _))]
    exact ih (fun d hd => h d (List.mem_cons_of_mem _ hd))

theorem dropWhile_none (p : Char → Bool) (l : GoString) (h : ∀ c ∈ l, p c = false) :
    l.dropWhile p = l := by
  cases l with
  | nil => rfl
  | cons c cs =>
    exact List.dropWhile_cons_of_neg (by simp [h c (List.mem_cons_self _ _)])

/-- Trimming removes whitespace padding around a core that holds no whitespace. -/
theorem trimSpace_pad (ws1 core ws2 : GoString) (h1 : ∀ c ∈ ws1, isSpace c = true)
    (h2 : ∀ c ∈ ws2, isSpace c = true) (hcore : ∀ c ∈ core, isSpace c = false) :
    trimSpace (ws1 ++ core ++ ws2) = core := by
  unfold trimSpace trimLeft trimRight
  rw [List.append_assoc, dropWhile_append_all isSpace ws1 _ h1]
  cases core with
  | nil =>
    rw [List.nil_append, dropWhile_all isSpace ws2 h2]
    rfl
  | cons c cs =>
    rw [List.cons_append,
      List.dropWhile_cons_of_neg (by simp [hcore c (List.mem_cons_self _ _)]),
      ← List.cons_append, List.reverse_append,
      dropWhile_append_all isSpace _ _ (fun d hd => h2 d (List.mem_reverse.1 hd)),
      dropWhile_none isSpace _ (fun d hd => hcore d (List.mem_reverse.1 hd)),
      List.reverse_reverse]

theorem trimSpace_of_no_space (s : GoString) (h : ∀ c ∈ s, isSpace c = false) :
    trimSpace s = s := by
  have := trimSpace_pad [] s [] (by simp) (by simp) h
  simpa using this

/-! ### Characters of a canonical address -/

theorem canon_char_facts : ∀ c ∈ upperHexDigits ++ [':'],
    isSpace c = false ∧ c.toNat < 128 ∧ asciiUpper c = c ∧ c ≠ '-' := by decide

theorem canon_lower_facts : ∀ a ∈ upperHexDigits ++ [':'],
    isSpace (lowerAscii a) = false ∧ (lowerAscii a).toNat < 128 ∧
      asciiUpper (lowerAscii a) = a := by decide

theorem upperHex_of_hex_not_lower : ∀ c ∈ hexDigits,
    ¬ (97 ≤ c.toNat ∧ c.toNat ≤ 122) → c ∈ upperHexDigits := by decide

theorem upperHex_sub_hex : ∀ c ∈ upperHexDigits, c ∈ hexDigits ∧ c ≠ ':' := by decide

theorem asciiUpper_not_lower (c : Char) :
    ¬ (97 ≤ (asciiUpper c).toNat ∧ (asciiUpper c).toNat ≤ 122) := by
  unfold asciiUpper
  have h97 : 'a'.toNat = 97 := rfl
  have h122 : 'z'.toNat = 122 := rfl
  rw [h97, h122]
  split_ifs with h
  · obtain ⟨h1, h2⟩ := h
    generalize c.toNat = n at h1 h2
    interval_cases n <;> decide
  · exact h

/-- The per-character map of `transformed`: upper-case, then `-` to `:`. -/
theorem transformed_eq_map (tbl : Char → Char) (raw : GoString) :
    transformed tbl raw =
      (trimSpace raw).map fun c =>
        if upperRune tbl c = '-' then ':' else upperRune tbl c := by
  unfold transformed replaceAll toUpper
  rw [List.map_map]
  rfl

/-- The per-character map fixes the characters of a canonical address. -/
theorem canon_char_fixed (tbl : Char → Char) (c : Char) (hc : c ∈ upperHexDigits ++ [':']) :
    (if upperRune tbl c = '-' then ':' else upperRune tbl c) = c := by
  obtain ⟨_, h2, h3, h4⟩ := canon_char_facts c hc
  have hu : upperRune tbl c = c := by
    unfold upperRune; rw [if_pos h2, h3]
  rw [hu, if_neg h4]

/-- A string made of canonical-address characters is left unchanged by the transformation. -/
theorem transformed_fixed (tbl : Char → Char) (y : GoString)
    (hy : ∀ c ∈ y, c ∈ upperHexDigits ++ [':']) : transformed tbl y = y := by
  rw [transformed_eq_map, trimSpace_of_no_space y (fun c hc => (canon_char_facts c (hy c hc)).1)]
  conv_rhs => rw [← List.map_id y]
  exact List.map_congr_left (fun c hc => canon_char_fixed tbl c (hy c hc))

/-- C5: `NormalizeAddress` is idempotent on valid input: when `NormalizeAddress(x)` succeeds
with result `y`, `NormalizeAddress(y)` succeeds and returns `y`.  (`tbl` is the Unicode
upper-case mapping outside ASCII; like the real one it never yields an ASCII lower-case
letter.) -/
theorem NormalizeAddress_idempotent (tbl : Char → Char)
    (htbl : ∀ c : Char, 128 ≤ c.toNat → ¬ (97 ≤ (tbl c).toNat ∧ (tbl c).toNat ≤ 122))
    (x y : GoString) (hxy : NormalizeAddress tbl x = .ok y) :
    NormalizeAddress tbl y = .ok y := by
  unfold NormalizeAddress at *
  rw [normalizeAddress_eq] at hxy
  by_cases hs : SixHexGroups (transformed tbl x)
  · rw [if_pos hs] at hxy
    injection hxy with hxy
    -- every character of `y` is an upper-case hexadecimal digit or a colon
    have hchars : ∀ c ∈ y, c ∈ upperHexDigits ++ [':'] := by
      intro c hc
      have hnl : ¬ (97 ≤ c.toNat ∧ c.toNat ≤ 122) := by
        rw [← hxy, transformed_eq_map, List.mem_map] at hc
        obtain ⟨c0, _, hc0⟩ := hc
        have hup : ¬ (97 ≤ (upperRune tbl c0).toNat ∧ (upperRune tbl c0).toNat ≤ 122) := by
          unfold upperRune
          split_ifs with h128
          · exact asciiUpper_not_lower c0
          · exact htbl c0 (by omega)
        rw [← hc0]
        split_ifs with hdash
        · decide
        · exact hup
      rw [← hxy] at hc
      rcases mem_split ':' _ c hc with h1 | ⟨g, hg, hcg⟩
      · simp [h1]
      · exact List.mem_append_left _
          (upperHex_of_hex_not_lower c ((hs.2 g hg).2 c hcg) hnl)
    rw [normalizeAddress_eq, transformed_fixed tbl y hchars, ← hxy, if_pos hs]
  · rw [if_neg hs] at hxy
    cases hxy

/-- Witness for C5, on the lower-case dashed spelling of the test suite. -/
theorem NormalizeAddress_idempotent_witness :
    NormalizeAddress id "66-22-b6-5c-5c-3c".toList = .ok "66:22:B6:5C:5C:3C".toList ∧
      NormalizeAddress id "66:22:B6:5C:5C:3C".toList = .ok "66:22:B6:5C:5C:3C".toList :=
  ⟨by decide,
    NormalizeAddress_idempotent id (fun c hc => by simp only [id]; omega)
      "66-22-b6-5c-5c-3c".toList "66:22:B6:5C:5C:3C".toList (by decide)⟩

/-- C6: `NormalizeAddress` is case- and separator-insensitive: for a canonical address `a` and
a spelling obtained from it by replacing some `:` by `-`, lower-casing some letters, and
padding with leading and trailing whitespace (in the sense of `unicode.IsSpace`),
`NormalizeAddress` succeeds and returns `a`. -/
theorem NormalizeAddress_insensitive (tbl : Char → Char) (a core ws1 ws2 : GoString)
    (ha : IsCanonical a) (hcore : List.Forall₂ Variant core a)
    (hws1 : ∀ c ∈ ws1, isSpace c = true) (hws2 : ∀ c ∈ ws2, isSpace c = true) :
    NormalizeAddress tbl (ws1 ++ core ++ ws2) = .ok a := by
  obtain ⟨groups, hlen, hgroups, rfl⟩ := ha
  have hne : groups ≠ [] := by
    intro h; rw [h] at hlen; simp at hlen
  have hnosep : ∀ g ∈ groups, ':' ∉ g :=
    fun g hg hm => (upperHex_sub_hex ':' ((hgroups g hg).2 ':' hm)).2 rfl
  -- characters of the canonical address
  have hachars : ∀ c ∈ List.intercalate [':'] groups, c ∈ upperHexDigits ++ [':'] := by
    intro c hc
    rcases mem_intercalate ':' groups c hc with h1 | ⟨g, hg, hcg⟩
    · simp [h1]
    · exact List.mem_append_left _ ((hgroups g hg).2 c hcg)
  -- pointwise: no character of the core is whitespace, and each is mapped to its original
  have hpoint : ∀ (l m : GoString), List.Forall₂ Variant l m →
      (∀ c ∈ m, c ∈ upperHexDigits ++ [':']) →
      (∀ c ∈ l, isSpace c = false) ∧
        (l.map fun c => if upperRune tbl c = '-' then ':' else upperRune tbl c) = m := by
    intro l m hlm
    induction hlm with
    | nil => intro _; exact ⟨by simp, rfl⟩
    | @cons x b l' m' hxb _ ih =>
      intro hm
      have hb := hm b (List.mem_cons_self _ _)
      obtain ⟨ih1, ih2⟩ := ih (fun c hc => hm c (List.mem_cons_of_mem _ hc))
      have hx : isSpace x = false ∧
          (if upperRune tbl x = '-' then ':' else upperRune tbl x) = b := by
        rcases hxb with h | h | ⟨h1, h2⟩
        · rw [h]
          exact ⟨(canon_char_facts b hb).1, canon_char_fixed tbl b hb⟩
        · obtain ⟨f1, f2, f3⟩ := canon_lower_facts b hb
          rw [h]
          refine ⟨f1, ?_⟩
          have hu : upperRune tbl (lowerAscii b) = b := by
            unfold upperRune; rw [if_pos f2, f3]
          rw [hu, if_neg (canon_char_facts b hb).2.2.2]
        · rw [h1, h2]
          exact ⟨by decide, by
            have hu : upperRune tbl '-' = '-' := by
              unfold upperRune; rw [if_pos (by decide)]; decide
            rw [hu, if_pos rfl]⟩
      refine ⟨?_, ?_⟩
      · intro c hc
        rcases List.mem_cons.1 hc with h | h
        · rw [h]; exact hx.1
        · exact ih1 c h
      · rw [List.map_cons, hx.2, ih2]
  obtain ⟨hnospace, hmap⟩ := hpoint core _ hcore hachars
  have htr : transformed tbl (ws1 ++ core ++ ws2) = List.intercalate [':'] groups := by
    rw [transformed_eq_map, trimSpace_pad ws1 core ws2 hws1 hws2 hnospace, hmap]
  have hsix : SixHexGroups (List.intercalate [':'] groups) := by
    unfold SixHexGroups
    rw [split_intercalate ':' groups hne hnosep]
    exact ⟨hlen, fun g hg =>
      ⟨(hgroups g hg).1, fun c hc => (upperHex_sub_hex c ((hgroups g hg).2 c hc)).1⟩⟩
  unfold NormalizeAddress
  rw [normalizeAddress_eq, htr, if_pos hsix]

/-- Witness for C6: a mixed-case, mixed-separator spelling padded with a space, a tab and a
no-break space. -/
theorem NormalizeAddress_insensitive_witness :
    IsCanonical "66:22:B6:5C:5C:3C".toList ∧
      List.Forall₂ Variant "66-22-b6:5c-5C:3c".toList "66:22:B6:5C:5C:3C".toList ∧
      NormalizeAddress id (" \t".toList ++ "66-22-b6:5c-5C:3c".toList ++ [Char.ofNat 0xA0]) =
        .ok "66:22:B6:5C:5C:3C".toList :=
  have hcanon : IsCanonical "66:22:B6:5C:5C:3C".toList :=
    ⟨["66".toList, "22".toList, "B6".toList, "5C".toList, "5C".toList, "3C".toList],
      by decide, by decide, by decide⟩
  have hvar : List.Forall₂ Variant "66-22-b6:5c-5C:3c".toList "66:22:B6:5C:5C:3C".toList := by
    decide
  ⟨hcanon, hvar,
    NormalizeAddress_insensitive id _ _ " \t".toList [Char.ofNat 0xA0] hcanon hvar
      (by decide) (by decide)⟩

/-! ### The session -/

/-- `Connect` with a valid address, step by step. -/
theorem Connect_valid (tbl : Char → Char) (r : Radio) (c : Client) (address clean : GoString)
    (h : List Event) (hnorm : normalizeAddress tbl address = .ok clean) :
    c.Connect tbl r address h =
      match r.connect (afterOldTeardown c h) clean with
      | .error err => ⟨some err, ⟨c.dev, false⟩, afterOldTeardown c h ++ [Event.connect clean]⟩
      | .ok dev =>
        match r.discoverServices (afterOldTeardown c h ++ [Event.connect clean]) dev none with
        | .error err =>
          ⟨some (.linkUnverified err), ⟨c.dev, false⟩,
            afterOldTeardown c h ++
              [Event.connect clean, Event.discoverServices dev none, Event.disconnect dev]⟩
        | .ok _ =>
          ⟨none, ⟨dev, true⟩,
            afterOldTeardown c h ++ [Event.connect clean, Event.discoverServices dev none]⟩ := by
  have hc1 : (if c.connected = true then ({ c with connected := false } : Client) else c) =
      ⟨c.dev, false⟩ := by
    cases c with
    | mk dev connected => cases connected <;> rfl
  unfold Client.Connect afterOldTeardown
  rw [hnorm]
  simp only [hc1]
  cases r.connect (if c.connected = true then h ++ [Event.disconnect c.dev] else h) clean with
  | error err => rfl
  | ok dev =>
    simp only
    cases r.discoverServices
      ((if c.connected = true then h ++ [Event.disconnect c.dev] else h) ++
        [Event.connect clean]) dev none with
    | error err => simp only [List.append_assoc, List.singleton_append, List.cons_append,
        List.nil_append]
    | ok svcs => simp only [List.append_assoc, List.singleton_append]

/-- C7: for every prior session state and valid address, if `Connect` opens the new link but the
service-discovery probe fails, the new link's `Disconnect` is called, `Connect` returns the
link-unverified error wrapping the probe error, and the session is left disconnected, its
handle field not assigned the failed link; the session ends connected exactly when the adapter
opened a link and the probe succeeded, and then it holds the new handle. -/
theorem Connect_probe_failure (tbl : Char → Char) (r : Radio) (c : Client)
    (address clean : GoString) (h : List Event)
    (hnorm : normalizeAddress tbl address = .ok clean) :
    (∀ dev e, r.connect (afterOldTeardown c h) clean = .ok dev →
      r.discoverServices (afterOldTeardown c h ++ [Event.connect clean]) dev none = .error e →
      c.Connect tbl r address h =
        ⟨some (.linkUnverified e), ⟨c.dev, false⟩,
          afterOldTeardown c h ++
            [Event.connect clean, Event.discoverServices dev none, Event.disconnect dev]⟩) ∧
    (∀ dev svcs, r.connect (afterOldTeardown c h) clean = .ok dev →
      r.discoverServices (afterOldTeardown c h ++ [Event.connect clean]) dev none = .ok svcs →
      c.Connect tbl r address h =
        ⟨none, ⟨dev, true⟩,
          afterOldTeardown c h ++ [Event.connect clean, Event.discoverServices dev none]⟩) ∧
    ((c.Connect tbl r address h).client.connected = true ↔
      ∃ dev svcs, r.connect (afterOldTeardown c h) clean = .ok dev ∧
        r.discoverServices (afterOldTeardown c h ++ [Event.connect clean]) dev none =
          .ok svcs) := by
  rw [Connect_valid tbl r c address clean h hnorm]
  refine ⟨?_, ?_, ?_⟩
  · intro dev e h1 h2
    rw [h1]; simp only; rw [h2]
  · intro dev svcs h1 h2
    rw [h1]; simp only; rw [h2]
  · cases h1 : r.connect (afterOldTeardown c h) clean with
    | error err => simp
    | ok dev =>
      simp only
      cases h2 : r.discoverServices (afterOldTeardown c h ++ [Event.connect clean]) dev none with
      | error err =>
        simp only [Bool.false_eq_true, false_iff, not_exists, not_and]
        intro dev' svcs hd
        injection hd with hd
        rw [← hd, h2]
        simp
      | ok svcs =>
        simp only [true_iff]
        exact ⟨dev, svcs, rfl, h2⟩

/-- Witness for C7: on `probeFails`, connecting a connected session to a valid address ends
disconnected with the link-unverified error, the new link torn down. -/
theorem Connect_probe_failure_witness :
    Client.Connect id probeFails ⟨⟨4⟩, true⟩ "66-22-b6-5c-5c-3c".toList [] =
      ⟨some (.linkUnverified (.adapter 2)), ⟨⟨4⟩, false⟩,
        [Event.disconnect ⟨4⟩, Event.connect "66:22:B6:5C:5C:3C".toList,
          Event.discoverServices ⟨1⟩ none, Event.disconnect ⟨1⟩]⟩ :=
  (Connect_probe_failure id probeFails ⟨⟨4⟩, true⟩ "66-22-b6-5c-5c-3c".toList
    "66:22:B6:5C:5C:3C".toList [] (by decide)).1 ⟨1⟩ (.adapter 2) rfl rfl

/-- C8: on a connected session and a valid address, `Connect` calls `Disconnect` on the stored
link and only then asks the adapter to open the new link; the result of `Connect` (returned
value, session, events) does not depend on what the radio answers to `Disconnect`. -/
theorem Connect_tears_down_old_link_first (tbl : Char → Char) (r : Radio) (c : Client)
    (address clean : GoString) (h : List Event)
    (hnorm : normalizeAddress tbl address = .ok clean) (hconn : c.connected = true) :
    (∃ rest, (c.Connect tbl r address h).trace =
      h ++ Event.disconnect c.dev :: Event.connect clean :: rest) ∧
    (∀ answer : List Event → Device → Option Err,
      c.Connect tbl { r with disconnect := answer } address h = c.Connect tbl r address h) := by
  refine ⟨?_, ?_⟩
  · rw [Connect_valid tbl r c address clean h hnorm]
    unfold afterOldTeardown
    rw [if_pos hconn]
    cases r.connect (h ++ [Event.disconnect c.dev]) clean with
    | error err => exact ⟨[], by simp⟩
    | ok dev =>
      simp only
      cases r.discoverServices (h ++ [Event.disconnect c.dev] ++ [Event.connect clean]) dev
        none with
      | error err =>
        exact ⟨[Event.discoverServices dev none, Event.disconnect dev], by simp⟩
      | ok svcs => exact ⟨[Event.discoverServices dev none], by simp⟩
  · intro answer
    rw [Connect_valid tbl r c address clean h hnorm,
      Connect_valid tbl _ c address clean h hnorm]

/-- Witness for C8: reconnecting a connected session on `teardownFails`, where the old link's
`Disconnect` returns an error, gives the same result as on `okRadio`. -/
theorem Connect_tears_down_old_link_first_witness :
    (∃ rest, (Client.Connect id okRadio ⟨⟨4⟩, true⟩ "66-22-b6-5c-5c-3c".toList []).trace =
      [] ++ Event.disconnect ⟨4⟩ :: Event.connect "66:22:B6:5C:5C:3C".toList :: rest) ∧
    Client.Connect id teardownFails ⟨⟨4⟩, true⟩ "66-22-b6-5c-5c-3c".toList [] =
      Client.Connect id okRadio ⟨⟨4⟩, true⟩ "66-22-b6-5c-5c-3c".toList [] :=
  have hthm := Connect_tears_down_old_link_first id okRadio ⟨⟨4⟩, true⟩
    "66-22-b6-5c-5c-3c".toList "66:22:B6:5C:5C:3C".toList [] (by decide) rfl
  ⟨hthm.1, hthm.2 (fun _ _ => some (.adapter 3))⟩

/-- On a disconnected session no operation other than `Connect` changes the session or
issues an event. -/
theorem Op_run_disconnected (r : Radio) (op : Op) (c : Client) (h : List Event)
    (hc : c.connected = false) : op.run r (c, h) = (c, h) := by
  cases op with
  | isConnected => simp [Op.run, Client.IsConnected, hc]
  | disconnect => simp [Op.run, Client.Disconnect, hc]
  | describe => simp [Op.run, Client.Describe, hc]
  | print su cu data chunkSize wr => simp [Op.run, Client.Print, hc]

theorem runOps_disconnected (r : Radio) (ops : List Op) (c : Client) (h : List Event)
    (hc : c.connected = false) : runOps r ops (c, h) = (c, h) := by
  induction ops with
  | nil => rfl
  | cons op ops ih =>
    unfold runOps at *
    rw [List.foldl_cons, Op_run_disconnected r op c h hc]
    exact ih

/-- C9: `IsConnected` on a disconnected session returns false, issues no call and leaves the
state unchanged.  On a connected session it runs one service-discovery probe: if the probe
succeeds it returns true and the session is unchanged; if the probe fails it calls `Disconnect`
on the stored link, returns false and leaves the session disconnected, and then, after any
sequence of operations other than `Connect`, `IsConnected` still returns false and issues no
call. -/
theorem IsConnected_liveness (r : Radio) (c : Client) (h : List Event) :
    (c.connected = false → c.IsConnected r h = ⟨false, c, h⟩) ∧
    (c.connected = true → ∀ svcs, r.discoverServices h c.dev none = .ok svcs →
      c.IsConnected r h = ⟨true, c, h ++ [Event.discoverServices c.dev none]⟩) ∧
    (c.connected = true → ∀ e, r.discoverServices h c.dev none = .error e →
      c.IsConnected r h =
        ⟨false, ⟨c.dev, false⟩,
          h ++ [Event.discoverServices c.dev none, Event.disconnect c.dev]⟩ ∧
      ∀ ops : List Op,
        Client.IsConnected r
            (runOps r ops ((c.IsConnected r h).client, (c.IsConnected r h).trace)).1
            (runOps r ops ((c.IsConnected r h).client, (c.IsConnected r h).trace)).2 =
          ⟨false, ⟨c.dev, false⟩,
            h ++ [Event.discoverServices c.dev none, Event.disconnect c.dev]⟩) := by
  refine ⟨?_, ?_, ?_⟩
  · intro hc
    simp [Client.IsConnected, hc]
  · intro hc svcs hp
    cases c with
    | mk dev connected =>
      simp only at hc hp
      subst hc
      simp [Client.IsConnected, hp]
  · intro hc e hp
    have hres : c.IsConnected r h =
        ⟨false, ⟨c.dev, false⟩,
          h ++ [Event.discoverServices c.dev none, Event.disconnect c.dev]⟩ := by
      simp [Client.IsConnected, hc, hp]
    refine ⟨hres, ?_⟩
    intro ops
    rw [hres]
    simp only
    rw [runOps_disconnected r ops ⟨c.dev, false⟩ _ rfl]
    simp [Client.IsConnected]

/-- Witness for C9: on `probeFails` a connected session is downgraded by `IsConnected`, and
stays so across a later `Describe`, `Print`, `Disconnect` and `IsConnected`. -/
theorem IsConnected_liveness_witness :
    Client.IsConnected probeFails ⟨⟨4⟩, true⟩ [] =
        ⟨false, ⟨⟨4⟩, false⟩, [Event.discoverServices ⟨4⟩ none, Event.disconnect ⟨4⟩]⟩ ∧
      Client.IsConnected probeFails
          (runOps probeFails [Op.describe, Op.print [] [] [1, 2] 1 true, Op.disconnect,
            Op.isConnected]
            ((Client.IsConnected probeFails ⟨⟨4⟩, true⟩ []).client,
              (Client.IsConnected probeFails ⟨⟨4⟩, true⟩ []).trace)).1
          (runOps probeFails [Op.describe, Op.print [] [] [1, 2] 1 true, Op.disconnect,
            Op.isConnected]
            ((Client.IsConnected probeFails ⟨⟨4⟩, true⟩ []).client,
              (Client.IsConnected probeFails ⟨⟨4⟩, true⟩ []).trace)).2 =
        ⟨false, ⟨⟨4⟩, false⟩, [Event.discoverServices ⟨4⟩ none, Event.disconnect ⟨4⟩]⟩ :=
  have hthm := (IsConnected_liveness probeFails ⟨⟨4⟩, true⟩ []).2.2 rfl (.adapter 2) rfl
  ⟨hthm.1, hthm.2 _⟩

/-- C10 as stated fails: on `teardownFails` the stored link's teardown returns an error, and
`Disconnect` on a connected session returns that error with the session still marked
connected. -/
theorem Disconnect_teardown_error_stays_connected :
    Client.Disconnect teardownFails ⟨⟨1⟩, true⟩ [] =
        ⟨some (.adapter 3), ⟨⟨1⟩, true⟩, [Event.disconnect ⟨1⟩]⟩ ∧
      (Client.Disconnect teardownFails ⟨⟨1⟩, true⟩ []).client.connected ≠ false := by
  decide

/-- C10, amended: `Disconnect` on an already-disconnected session returns ok without calling
the adapter and leaves the state unchanged; on a connected session it calls the stored link's
teardown, and when the teardown succeeds it returns ok with the session marked disconnected,
while when the teardown fails it returns that error with the session unchanged (still marked
connected). -/
theorem Disconnect_marks_disconnected_on_success (r : Radio) (c : Client) (h : List Event) :
    (c.connected = false → c.Disconnect r h = ⟨none, c, h⟩) ∧
    (c.connected = true → r.disconnect h c.dev = none →
      c.Disconnect r h = ⟨none, ⟨c.dev, false⟩, h ++ [Event.disconnect c.dev]⟩) ∧
    (c.connected = true → ∀ e, r.disconnect h c.dev = some e →
      c.Disconnect r h = ⟨some e, c, h ++ [Event.disconnect c.dev]⟩) := by
  refine ⟨?_, ?_, ?_⟩
  · intro hc
    simp [Client.Disconnect, hc]
  · intro hc hd
    simp [Client.Disconnect, hc, hd]
  · intro hc e hd
    simp [Client.Disconnect, hc, hd]

/-- Witness for the amended C10: a successful teardown on `okRadio`. -/
theorem Disconnect_marks_disconnected_on_success_witness :
    Client.Disconnect okRadio ⟨⟨1⟩, true⟩ [] = ⟨none, ⟨⟨1⟩, false⟩, [Event.disconnect ⟨1⟩]⟩ :=
  (Disconnect_marks_disconnected_on_success okRadio ⟨⟨1⟩, true⟩ []).2.1 rfl rfl

/-! ### Describe -/

/-- The loop of `Describe`, started after the services `pre` have been handled: it appends the
entries of the remaining services and one enumeration call per remaining service. -/
theorem describeLoop_eq (r : Radio) (h1 : List Event) (services : List DeviceService) :
    ∀ (rest pre : List DeviceService) (out : List ServiceInfo), services = pre ++ rest →
      describeLoop r rest out (h1 ++ pre.map enumerateEvent) =
        (out ++ (List.range rest.length).filterMap
            (fun j => describeEntry r h1 services (pre.length + j)),
          h1 ++ services.map enumerateEvent) := by
  intro rest
  induction rest with
  | nil =>
    intro pre out hs
    simp [describeLoop, hs]
  | cons s rest ih =>
    intro pre out hs
    have hs' : services = (pre ++ [s]) ++ rest := by simp [hs]
    have hget : services[pre.length]? = some s := by
      rw [hs, List.getElem?_append_right (le_refl _)]; simp
    have htake : services.take pre.length = pre := by simp [hs]
    have hentry0 : describeEntry r h1 services (pre.length + 0) =
        match r.discoverCharacteristics (h1 ++ pre.map enumerateEvent) s none with
        | .error _ => none
        | .ok chars =>
          some { UUID := r.formatUUID s.uuid, Characteristics := charInfos r chars } := by
      unfold describeEntry
      rw [Nat.add_zero, hget, htake]
    have hnext := fun out' => ih (pre ++ [s]) out' hs'
    have hshift : ∀ j, pre.length + (j + 1) = (pre ++ [s]).length + j := by
      intro j; simp; omega
    rw [describeLoop, List.length_cons, List.range_succ_eq_map, List.filterMap_cons,
      List.filterMap_map]
    simp only [Function.comp_def, Nat.succ_eq_add_one, hshift]
    rw [hentry0]
    have hhist : h1 ++ pre.map enumerateEvent ++ [Event.discoverCharacteristics s none] =
        h1 ++ (pre ++ [s]).map enumerateEvent := by
      simp [enumerateEvent]
    cases r.discoverCharacteristics (h1 ++ pre.map enumerateEvent) s none with
    | error e =>
      simp only
      rw [hhist, hnext out]
    | ok chars =>
      simp only
      rw [hhist, hnext, List.append_assoc]
      rfl

/-- `Describe` on a connected session whose service discovery succeeds. -/
theorem Describe_connected (r : Radio) (c : Client) (h : List Event)
    (services : List DeviceService) (hconn : c.connected = true)
    (hsvc : r.discoverServices h c.dev none = .ok services) :
    c.Describe r h =
      ⟨.ok ⟨(List.range services.length).filterMap
          (describeEntry r (h ++ [Event.discoverServices c.dev none]) services)⟩,
        c, h ++ [Event.discoverServices c.dev none] ++ services.map enumerateEvent⟩ := by
  have hloop := describeLoop_eq r (h ++ [Event.discoverServices c.dev none]) services
    services [] [] rfl
  simp only [List.map_nil, List.append_nil, List.length_nil, Nat.zero_add, List.nil_append]
    at hloop
  unfold Client.Describe
  simp only [hconn, Bool.not_true, Bool.false_eq_true, if_false, hsvc, hloop]

/-- C11 as stated fails: on `firstEnumerationFails` service discovery yields two services and
the characteristic enumeration of the first fails; `Describe` returns ok with a single entry,
that of the second service: the first service is not reported at all. -/
theorem Describe_skips_failed_service :
    firstEnumerationFails.discoverServices [] ⟨1⟩ none = .ok [⟨7, ⟨4⟩⟩, ⟨8, ⟨6⟩⟩] ∧
    Client.Describe firstEnumerationFails ⟨⟨1⟩, true⟩ [] =
      ⟨.ok ⟨[ServiceInfo.mk ['6'] [CharacteristicInfo.mk ['5'] true false false false]]⟩,
        ⟨⟨1⟩, true⟩,
        [Event.discoverServices ⟨1⟩ none, Event.discoverCharacteristics ⟨7, ⟨4⟩⟩ none,
          Event.discoverCharacteristics ⟨8, ⟨6⟩⟩ none]⟩ := by
  decide

/-- C11, amended: on a connected session whose service discovery succeeds with services
`s1..sn`, `Describe` enumerates the characteristics of every service, in discovery order, and
returns ok with one entry, in discovery order, for each service whose enumeration succeeded
(so exactly `n` entries when all succeed, never more than `n`); a service whose enumeration
fails is left out, without aborting `Describe` and without changing the entries of the other
services. -/
theorem Describe_reports_enumerated_services (r : Radio) (c : Client) (h : List Event)
    (services : List DeviceService) (hconn : c.connected = true)
    (hsvc : r.discoverServices h c.dev none = .ok services) :
    ∃ out, c.Describe r h =
        ⟨.ok ⟨out⟩, c,
          h ++ [Event.discoverServices c.dev none] ++ services.map enumerateEvent⟩ ∧
      out = (List.range services.length).filterMap
        (describeEntry r (h ++ [Event.discoverServices c.dev none]) services) ∧
      out.length ≤ services.length ∧
      ((∀ k, k < services.length →
          (describeEntry r (h ++ [Event.discoverServices c.dev none]) services k).isSome) →
        out.length = services.length) := by
  refine ⟨_, Describe_connected r c h services hconn hsvc, rfl, ?_, ?_⟩
  · have := List.length_filterMap_le
      (describeEntry r (h ++ [Event.discoverServices c.dev none]) services)
      (List.range services.length)
    simpa using this
  · intro hall
    have hmap : (List.range services.length).filterMap
        (describeEntry r (h ++ [Event.discoverServices c.dev none]) services) =
        (List.range services.length).map (fun k =>
          ((describeEntry r (h ++ [Event.discoverServices c.dev none]) services k).getD
            ⟨[], []⟩)) := by
      rw [← List.filterMap_eq_map]
      apply List.filterMap_congr
      intro k hk
      have hk' := hall k (List.mem_range.1 hk)
      obtain ⟨v, hv⟩ := Option.isSome_iff_exists.1 hk'
      simp [hv]
    rw [hmap, List.length_map, List.length_range]

/-- Witness for the amended C11: on `firstEnumerationFails` only the second service is
reported. -/
theorem Describe_reports_enumerated_services_witness :
    ∃ out, Client.Describe firstEnumerationFails ⟨⟨1⟩, true⟩ [] =
        ⟨.ok ⟨out⟩, ⟨⟨1⟩, true⟩,
          [] ++ [Event.discoverServices ⟨1⟩ none] ++
            ([⟨7, ⟨4⟩⟩, ⟨8, ⟨6⟩⟩] : List DeviceService).map enumerateEvent⟩ ∧
      out = (List.range 2).filterMap
        (describeEntry firstEnumerationFails ([] ++ [Event.discoverServices ⟨1⟩ none])
          [⟨7, ⟨4⟩⟩, ⟨8, ⟨6⟩⟩]) ∧
      out.length ≤ 2 ∧
      ((∀ k, k < 2 →
          (describeEntry firstEnumerationFails ([] ++ [Event.discoverServices ⟨1⟩ none])
            [⟨7, ⟨4⟩⟩, ⟨8, ⟨6⟩⟩] k).isSome) →
        out.length = 2) :=
  Describe_reports_enumerated_services firstEnumerationFails ⟨⟨1⟩, true⟩ []
    [⟨7, ⟨4⟩⟩, ⟨8, ⟨6⟩⟩] rfl rfl

/-- C12: on a disconnected session `Describe` and `Print` (for every service id,
characteristic id, payload, chunk size and acknowledged flag) return the not-connected error,
issue no call to the radio stack and leave the session unchanged. -/
theorem disconnected_Describe_and_Print (r : Radio) (c : Client) (h : List Event)
    (hc : c.connected = false) :
    c.Describe r h = ⟨.error .notConnected, c, h⟩ ∧
    ∀ (serviceUUID charUUID : GoString) (data : List Byte) (chunkSize : Int) (wr : Bool),
      c.Print r serviceUUID charUUID data chunkSize wr h =
        some ⟨.returned (some .notConnected), c, h⟩ := by
  refine ⟨?_, ?_⟩
  · simp [Client.Describe, hc]
  · intro su cu data chunkSize wr
    simp [Client.Print, hc]

/-- Witness for C12: a disconnected session on `okRadio`. -/
theorem disconnected_Describe_and_Print_witness :
    Client.Describe okRadio ⟨⟨1⟩, false⟩ [] = ⟨.error .notConnected, ⟨⟨1⟩, false⟩, []⟩ ∧
    Client.Print okRadio ⟨⟨1⟩, false⟩ [] [] [1, 2, 3] 2 true [] =
      some ⟨.returned (some .notConnected), ⟨⟨1⟩, false⟩, []⟩ :=
  have hthm := disconnected_Describe_and_Print okRadio ⟨⟨1⟩, false⟩ [] rfl
  ⟨hthm.1, hthm.2 [] [] [1, 2, 3] 2 true⟩

/-! ### Scan -/

/-- C13: the scan admission gate.  If `scanInProgress` is set at entry, `Scan` returns
`ErrScanBusy`, performs no action (no discovery is started) and leaves the flag set.  If the
flag is clear at entry, `Scan` sets it, starts discovery, sleeps, signals the stop and clears
the flag last; the flag is set at every moment in between, and it is clear when `Scan`
returns, whichever way the pass ends (grace timeout, adapter error, success); hence a `Scan`
started after a completed one is admitted. -/
theorem Scan_admission_gate (tbl : Char → Char) (seconds : Int) (nameContains : GoString)
    (d : Discovery) :
    Scan tbl seconds nameContains d true = ⟨.error .scanBusy, true, []⟩ ∧
    (Scan tbl seconds nameContains d false).scanInProgress = false ∧
    (∃ window, (Scan tbl seconds nameContains d false).trace =
      [ScanEvent.setInProgress true, ScanEvent.startScan, ScanEvent.sleep window,
        ScanEvent.stopScan, ScanEvent.setInProgress false]) ∧
    (∀ k, 0 < k → k < (Scan tbl seconds nameContains d false).trace.length →
      flagAfter false ((Scan tbl seconds nameContains d false).trace.take k) = true) ∧
    (d.stop = .graceExpired →
      ∃ window, (Scan tbl seconds nameContains d false).ret = .error (.scanTimeout window)) ∧
    (∀ e, d.stop = .acknowledged (some e) →
      (Scan tbl seconds nameContains d false).ret = .error e) ∧
    (d.stop = .acknowledged none →
      ∃ hits, (Scan tbl seconds nameContains d false).ret = .ok hits) ∧
    (∀ (tbl' : Char → Char) (seconds' : Int) (nameContains' : GoString) (d' : Discovery),
      ∃ rest, (Scan tbl' seconds' nameContains' d'
          (Scan tbl seconds nameContains d false).scanInProgress).trace =
        ScanEvent.setInProgress true :: ScanEvent.startScan :: rest) := by
  have htrace : ∀ (tbl : Char → Char) (seconds : Int) (nameContains : GoString)
      (d : Discovery),
      (Scan tbl seconds nameContains d false).scanInProgress = false ∧
      (Scan tbl seconds nameContains d false).trace =
        [ScanEvent.setInProgress true, ScanEvent.startScan,
          ScanEvent.sleep (wrap64 (wrap64 (if seconds ≤ 0 then 8 else seconds) * 1000000000)),
          ScanEvent.stopScan, ScanEvent.setInProgress false] := by
    intro tbl seconds nameContains d
    unfold Scan
    rcases d with ⟨adverts, stop⟩
    rcases stop with (_ | e) | _ <;> exact ⟨rfl, rfl⟩
  refine ⟨rfl, (htrace tbl seconds nameContains d).1, ⟨_, (htrace tbl seconds nameContains d).2⟩,
    ?_, ?_, ?_, ?_, ?_⟩
  · intro k hk0 hk
    rw [(htrace tbl seconds nameContains d).2] at hk ⊢
    simp only [List.length_cons, List.length_nil] at hk
    interval_cases k <;> rfl
  · intro hstop
    refine ⟨wrap64 (wrap64 (if seconds ≤ 0 then 8 else seconds) * 1000000000), ?_⟩
    unfold Scan; simp only [Bool.false_eq_true, if_false, hstop]
  · intro e hstop
    unfold Scan; simp only [Bool.false_eq_true, if_false, hstop]
  · intro hstop
    refine ⟨d.adverts.foldl (scanCallback tbl nameContains) [], ?_⟩
    unfold Scan; simp only [Bool.false_eq_true, if_false, hstop]
  · intro tbl' seconds' nameContains' d'
    rw [(htrace tbl seconds nameContains d).1, (htrace tbl' seconds' nameContains' d').2]
    exact ⟨_, rfl⟩

theorem hasPrefix_iff (s p : GoString) : hasPrefix s p = true ↔ p <+: s := by
  induction s generalizing p with
  | nil =>
    cases p with
    | nil => simp [hasPrefix]
    | cons d p => simp [hasPrefix]
  | cons c s ih =>
    cases p with
    | nil => simp [hasPrefix]
    | cons d p =>
      simp only [hasPrefix, Bool.and_eq_true, beq_iff_eq, ih, List.cons_prefix_cons]
      constructor
      · rintro ⟨h1, h2⟩; exact ⟨h1.symm, h2⟩
      · rintro ⟨h1, h2⟩; exact ⟨h1.symm, h2⟩

/-- The function `contains` decides the substring relation. -/
theorem contains_iff (s substr : GoString) : contains s substr = true ↔ substr <:+: s := by
  induction s with
  | nil => rw [contains, hasPrefix_iff, List.prefix_nil, List.infix_nil]
  | cons c cs ih =>
    rw [contains, Bool.or_eq_true, hasPrefix_iff, ih, List.infix_cons_iff]

/-- The callback keeps an advertisement exactly when its lower-cased name contains the
lower-cased filter. -/
theorem scanCallback_eq (tbl : Char → Char) (nameContains : GoString) (hits : List ScanHit)
    (r : ScanResult) :
    scanCallback tbl nameContains hits r =
      if toLower tbl nameContains <:+: toLower tbl r.LocalName then hits ++ [toHit r]
      else hits := by
  unfold scanCallback toHit
  by_cases hf : nameContains = []
  · subst hf
    simp [toLower]
  · by_cases hc : contains (toLower tbl r.LocalName) (toLower tbl nameContains) = true
    · have := (contains_iff _ _).1 hc
      simp [hf, hc, this]
    · have hn : ¬ toLower tbl nameContains <:+: toLower tbl r.LocalName :=
        fun h => hc ((contains_iff _ _).2 h)
      simp [hf, hc, hn]

theorem foldl_scanCallback (tbl : Char → Char) (nameContains : GoString)
    (adverts : List ScanResult) :
    ∀ hits : List ScanHit, adverts.foldl (scanCallback tbl nameContains) hits =
      hits ++ (adverts.filter fun a =>
        decide (toLower tbl nameContains <:+: toLower tbl a.LocalName)).map toHit := by
  induction adverts with
  | nil => intro hits; simp
  | cons a rest ih =>
    intro hits
    rw [List.foldl_cons, ih, scanCallback_eq, List.filter_cons]
    by_cases h : toLower tbl nameContains <:+: toLower tbl a.LocalName
    · simp [h]
    · simp [h]

/-- C14: for an admitted scan that completes normally, the hits returned are exactly the
advertisements whose lower-cased name contains the lower-cased filter as a substring, in
delivery order with duplicates kept; with an empty filter every advertisement is returned. -/
theorem Scan_returns_filtered_hits (tbl : Char → Char) (seconds : Int)
    (nameContains : GoString) (d : Discovery) (hstop : d.stop = .acknowledged none) :
    (Scan tbl seconds nameContains d false).ret =
      .ok ((d.adverts.filter fun a =>
        decide (toLower tbl nameContains <:+: toLower tbl a.LocalName)).map toHit) ∧
    (nameContains = [] →
      (Scan tbl seconds nameContains d false).ret = .ok (d.adverts.map toHit)) := by
  have hret : (Scan tbl seconds nameContains d false).ret =
      .ok ((d.adverts.filter fun a =>
        decide (toLower tbl nameContains <:+: toLower tbl a.LocalName)).map toHit) := by
    unfold Scan
    simp only [Bool.false_eq_true, if_false, hstop, foldl_scanCallback, List.nil_append]
  refine ⟨hret, ?_⟩
  intro hf
  rw [hret, hf]
  simp [toLower]

/-- Witness for C14: of four advertisements, the three whose name contains "printer" in any
case are returned, in order, the repeated one twice. -/
theorem Scan_returns_filtered_hits_witness :
    (Scan id 5 "PRINTER".toList samplePass false).ret =
      .ok [⟨"AA".toList, "POS-Printer".toList, -40⟩, ⟨"AA".toList, "POS-Printer".toList, -41⟩,
        ⟨"CC".toList, "my printer 2".toList, -60⟩] ∧
    (Scan id 5 [] samplePass false).ret = .ok (samplePass.adverts.map toHit) :=
  have hthm := Scan_returns_filtered_hits id 5 "PRINTER".toList samplePass rfl
  have hthm2 := Scan_returns_filtered_hits id 5 [] samplePass rfl
  ⟨hthm.1.trans (by decide), hthm2.2 rfl⟩

/-! ### CORS -/

theorem dropWhile_of_head (p : Char → Bool) (l : GoString)
    (h : ∀ c, l.head? = some c → p c = false) : l.dropWhile p = l := by
  cases l with
  | nil => rfl
  | cons c cs => exact List.dropWhile_cons_of_neg (by simp [h c rfl])

/-- A string that neither starts nor ends with whitespace is left unchanged by trimming. -/
theorem trimSpace_of_ends (s : GoString) (hhead : ∀ c, s.head? = some c → isSpace c = false)
    (hlast : ∀ c, s.getLast? = some c → isSpace c = false) : trimSpace s = s := by
  unfold trimSpace trimLeft trimRight
  rw [dropWhile_of_head isSpace s hhead,
    dropWhile_of_head isSpace s.reverse (fun c hc => hlast c (by rwa [List.head?_reverse] at hc)),
    List.reverse_reverse]

theorem suffix_singleton_iff (a : Char) (s : GoString) : [a] <:+ s ↔ s.getLast? = some a := by
  rw [List.getLast?_eq_some_iff]
  constructor
  · rintro ⟨t, ht⟩; exact ⟨t, ht.symm⟩
  · rintro ⟨t, ht⟩; exact ⟨t, ht.symm⟩

theorem trimSuffix_of_not_last (s : GoString) (a : Char) (h : s.getLast? ≠ some a) :
    trimSuffix s [a] = s := by
  unfold trimSuffix
  rw [if_neg (fun hs => h ((suffix_singleton_iff a s).1 hs))]

theorem trimSuffix_append (s : GoString) (a : Char) : trimSuffix (s ++ [a]) [a] = s := by
  unfold trimSuffix
  rw [if_pos (List.suffix_append s [a])]
  simp

/-- The allowlist entry computed for an item `o`, or `o` followed by one slash, is `o`. -/
theorem normalizeOrigin_item (o item : GoString) (hne : o ≠ [])
    (hhead : ∀ c, o.head? = some c → isSpace c = false)
    (hlast : ∀ c, o.getLast? = some c → isSpace c = false ∧ c ≠ '/')
    (hitem : item = o ∨ item = o ++ ['/']) :
    normalizeOrigin (trimSpace item) = o ∧ normalizeOrigin o = o := by
  have htrim : trimSpace o = o := trimSpace_of_ends o hhead (fun c hc => (hlast c hc).1)
  have hnoslash : o.getLast? ≠ some '/' := fun h => (hlast '/' h).2 rfl
  have hnorm : normalizeOrigin o = o := by
    show trimSuffix (trimSpace o) ['/'] = o
    rw [htrim, trimSuffix_of_not_last o '/' hnoslash]
  refine ⟨?_, hnorm⟩
  rcases hitem with h | h
  · rw [h, htrim, hnorm]
  · have htrim2 : trimSpace (o ++ ['/']) = o ++ ['/'] := by
      apply trimSpace_of_ends
      · intro c hc
        cases o with
        | nil => exact absurd rfl hne
        | cons d ds => exact hhead c (by simpa using hc)
      · intro c hc
        rw [List.getLast?_append] at hc
        simp at hc
        rw [← hc]; decide
    rw [h, htrim2]
    show trimSuffix (trimSpace (o ++ ['/'])) ['/'] = o
    rw [htrim2, trimSuffix_append]

theorem mem_setInsert (result : List GoString) (key t : GoString) :
    t ∈ setInsert result key ↔ t ∈ result ∨ t = key := by
  unfold setInsert
  split_ifs with h
  · constructor
    · exact Or.inl
    · rintro (h1 | h1)
      · exact h1
      · rw [h1]; exact h
  · simp

/-- The keys collected by the loop of `parseCSV`: those already present and the non-empty
normalised items. -/
theorem mem_parseCSV_loop (items : List GoString) (t : GoString) :
    ∀ acc : List GoString,
      t ∈ items.foldl
          (fun result item =>
            if normalizeOrigin (trimSpace item) = [] then result
            else setInsert result (normalizeOrigin (trimSpace item))) acc ↔
        t ∈ acc ∨ (t ≠ [] ∧ ∃ item ∈ items, normalizeOrigin (trimSpace item) = t) := by
  induction items with
  | nil => intro acc; simp
  | cons item rest ih =>
    intro acc
    rw [List.foldl_cons, ih]
    by_cases hz : normalizeOrigin (trimSpace item) = []
    · rw [if_pos hz]
      constructor
      · rintro (h | ⟨h1, it, hit, h2⟩)
        · exact Or.inl h
        · exact Or.inr ⟨h1, it, List.mem_cons_of_mem _ hit, h2⟩
      · rintro (h | ⟨h1, it, hit, h2⟩)
        · exact Or.inl h
        · rcases List.mem_cons.1 hit with h3 | h3
          · rw [h3, hz] at h2; exact absurd h2.symm h1
          · exact Or.inr ⟨h1, it, h3, h2⟩
    · rw [if_neg hz, mem_setInsert]
      constructor
      · rintro ((h | h) | ⟨h1, it, hit, h2⟩)
        · exact Or.inl h
        · exact Or.inr ⟨by rw [h]; exact hz, item, List.mem_cons_self _ _, h.symm⟩
        · exact Or.inr ⟨h1, it, List.mem_cons_of_mem _ hit, h2⟩
      · rintro (h | ⟨h1, it, hit, h2⟩)
        · exact Or.inl (Or.inl h)
        · rcases List.mem_cons.1 hit with h3 | h3
          · rw [h3] at h2; exact Or.inl (Or.inr h2.symm)
          · exact Or.inr ⟨h1, it, h3, h2⟩

theorem mem_parseCSV (value t : GoString) :
    t ∈ parseCSV value ↔
      t ≠ [] ∧ ∃ item ∈ split ',' value, normalizeOrigin (trimSpace item) = t := by
  unfold parseCSV
  have := mem_parseCSV_loop (split ',' value) t []
  simpa using this

theorem Header_Get_Set (h : Header) (key value k : GoString) :
    (h.Set key value).Get k = if k = key then value else h.Get k := by
  unfold Header.Set Header.Get
  by_cases hk : k = key
  · simp only [if_pos hk]
  · simp only [if_neg hk]

theorem Header_Get_Add_ne (h : Header) (key value k : GoString) (hk : k ≠ key) :
    (h.Add key value).Get k = h.Get k := by
  unfold Header.Add Header.Get
  simp only [if_neg hk]

/-- The allowlist built from a comma-separated value holding the item `o`, or `o` followed by
one slash, contains `o`. -/
theorem mem_allowOrigins (o item : GoString) (pre post : List GoString) (hne : o ≠ [])
    (hcomma : ',' ∉ o) (hhead : ∀ c, o.head? = some c → isSpace c = false)
    (hlast : ∀ c, o.getLast? = some c → isSpace c = false ∧ c ≠ '/')
    (hitem : item = o ∨ item = o ++ ['/'])
    (hpre : ∀ it ∈ pre, ',' ∉ it) (hpost : ∀ it ∈ post, ',' ∉ it) :
    o ∈ parseCSV (List.intercalate [','] (pre ++ item :: post)) := by
  have hic : ',' ∉ item := by
    rcases hitem with h | h
    · rw [h]; exact hcomma
    · rw [h]
      intro hm
      rcases List.mem_append.1 hm with h1 | h1
      · exact hcomma h1
      · simp at h1
  have hall : ∀ it ∈ pre ++ item :: post, ',' ∉ it := by
    intro it hit
    rcases List.mem_append.1 hit with h1 | h1
    · exact hpre it h1
    · rcases List.mem_cons.1 h1 with h2 | h2
      · rw [h2]; exact hic
      · exact hpost it h2
  rw [mem_parseCSV, split_intercalate ',' _ (by simp) hall]
  exact ⟨hne, item, by simp, (normalizeOrigin_item o item hne hhead hlast hitem).1⟩

/-- C15: explicit CORS allowlist with trailing-slash normalisation.  For a non-empty origin
`o` without comma, without leading or trailing whitespace and not ending in `/`, if the
comma-separated `allow_origins` value holds `o`, or `o` followed by one `/`, as an item, then
`isOriginAllowed` returns true for the request origin `o`, and for a request with that origin
and a method other than OPTIONS `corsMiddleware` hands the request to the wrapped handler with
the response header `Access-Control-Allow-Origin` set to `o`. -/
theorem explicit_origin_allowed (o item : GoString) (pre post : List GoString)
    (patterns : List originPattern) (hne : o ≠ []) (hcomma : ',' ∉ o)
    (hhead : ∀ c, o.head? = some c → isSpace c = false)
    (hlast : ∀ c, o.getLast? = some c → isSpace c = false ∧ c ≠ '/')
    (hitem : item = o ∨ item = o ++ ['/'])
    (hpre : ∀ it ∈ pre, ',' ∉ it) (hpost : ∀ it ∈ post, ',' ∉ it) :
    isOriginAllowed (newCORSConfig (List.intercalate [','] (pre ++ item :: post)) patterns) o =
      (true, "explicit allowlist".toList) ∧
    ∀ (next : Handler) (w : ResponseWriter) (r : Request),
      r.Origin = o → r.Method ≠ "OPTIONS".toList →
      ∃ w', corsMiddleware
            (newCORSConfig (List.intercalate [','] (pre ++ item :: post)) patterns) next w r =
          next w' r ∧
        w'.header.Get "Access-Control-Allow-Origin".toList = o ∧
        w'.status = w.status ∧ w'.body = w.body := by
  have hmem := mem_allowOrigins o item pre post hne hcomma hhead hlast hitem hpre hpost
  have hnorm := (normalizeOrigin_item o item hne hhead hlast hitem).2
  have hallowed : isOriginAllowed
      (newCORSConfig (List.intercalate [','] (pre ++ item :: post)) patterns) o =
      (true, "explicit allowlist".toList) := by
    unfold isOriginAllowed newCORSConfig
    simp only [hnorm, if_neg hne, if_pos hmem]
  refine ⟨hallowed, ?_⟩
  intro next w r hor hmeth
  have hkey : "Access-Control-Allow-Origin".toList ≠ "Vary".toList := by decide
  have hcond : (decide (o ≠ []) && true) = true := by simp [hne]
  refine ⟨{ w with header :=
      ((w.header.Set "Access-Control-Allow-Private-Network".toList "true".toList).Set
        "Access-Control-Allow-Origin".toList o).Add "Vary".toList "Origin".toList }, ?_, ?_,
    rfl, rfl⟩
  · unfold corsMiddleware
    simp only [hor, hallowed, hcond, if_true, if_neg hmeth]
  · simp only [Header_Get_Add_ne _ _ _ _ hkey, Header_Get_Set, if_true]

/-- Witness for C15: the allowlist of the trailing-slash test, `https://allowed.example/`, and
the request origin `https://allowed.example`. -/
theorem explicit_origin_allowed_witness :
    isOriginAllowed (newCORSConfig
        (List.intercalate [','] ([] ++ "https://allowed.example/".toList :: [])) [])
        "https://allowed.example".toList = (true, "explicit allowlist".toList) ∧
    ∃ w', corsMiddleware (newCORSConfig
          (List.intercalate [','] ([] ++ "https://allowed.example/".toList :: [])) [])
          okHandler freshResponse
          ⟨"GET".toList, "/health".toList, "https://allowed.example".toList, []⟩ =
        okHandler w' ⟨"GET".toList, "/health".toList, "https://allowed.example".toList, []⟩ ∧
      w'.header.Get "Access-Control-Allow-Origin".toList = "https://allowed.example".toList ∧
      w'.status = freshResponse.status ∧ w'.body = freshResponse.body :=
  have hthm := explicit_origin_allowed "https://allowed.example".toList
    "https://allowed.example/".toList [] [] [] (by decide) (by decide) (by decide) (by decide)
    (Or.inr (by decide)) (by decide) (by decide)
  ⟨hthm.1, hthm.2 okHandler freshResponse
    ⟨"GET".toList, "/health".toList, "https://allowed.example".toList, []⟩ rfl (by decide)⟩

/-- C16: for every request whose method is OPTIONS, whatever its origin, path and `x-api-key`
header, `corsMiddleware` answers a fresh response with status 204, sets
`Access-Control-Allow-Methods`, `Access-Control-Allow-Headers`, `Access-Control-Max-Age` and
`Access-Control-Allow-Private-Network: true`, writes no body, and its result does not depend on
the wrapped handler, which is therefore never run: in particular the API-key check of
`requireAuth` is bypassed. -/
theorem preflight_bypasses_handler (cfg : corsConfig) (next : Handler) (w : ResponseWriter)
    (r : Request) (hmeth : r.Method = "OPTIONS".toList) (hfresh : w.status = none) :
    (corsMiddleware cfg next w r).status = some 204 ∧
    (corsMiddleware cfg next w r).header.Get "Access-Control-Allow-Methods".toList =
      corsAllowMethods ∧
    (corsMiddleware cfg next w r).header.Get "Access-Control-Allow-Headers".toList =
      corsAllowHeaders ∧
    (corsMiddleware cfg next w r).header.Get "Access-Control-Max-Age".toList = corsMaxAge ∧
    (corsMiddleware cfg next w r).header.Get "Access-Control-Allow-Private-Network".toList =
      "true".toList ∧
    (corsMiddleware cfg next w r).body = w.body ∧
    (∀ next' : Handler, corsMiddleware cfg next' w r = corsMiddleware cfg next w r) ∧
    (∀ (currentAPIKey : GoString) (inner : Handler),
      (corsMiddleware cfg (requireAuth currentAPIKey inner) w r).status = some 204) := by
  have h1 : "Access-Control-Allow-Methods".toList ≠ "Access-Control-Max-Age".toList := by
    decide
  have h2 : "Access-Control-Allow-Methods".toList ≠ "Access-Control-Allow-Headers".toList := by
    decide
  have h3 : "Access-Control-Allow-Headers".toList ≠ "Access-Control-Max-Age".toList := by
    decide
  have h4 : "Access-Control-Allow-Private-Network".toList ≠
      "Access-Control-Max-Age".toList := by decide
  have h5 : "Access-Control-Allow-Private-Network".toList ≠
      "Access-Control-Allow-Headers".toList := by decide
  have h6 : "Access-Control-Allow-Private-Network".toList ≠
      "Access-Control-Allow-Methods".toList := by decide
  have h7 : "Access-Control-Allow-Private-Network".toList ≠ "Vary".toList := by decide
  have h8 : "Access-Control-Allow-Private-Network".toList ≠
      "Access-Control-Allow-Origin".toList := by decide
  have hstatus : ∀ (n : Handler), (corsMiddleware cfg n w r).status = some 204 := by
    intro n
    unfold corsMiddleware ResponseWriter.WriteHeader
    simp only [hmeth, if_true, hfresh]
  have hindep : ∀ (n : Handler), corsMiddleware cfg n w r = corsMiddleware cfg next w r := by
    intro n
    unfold corsMiddleware
    simp only [hmeth, if_true]
  refine ⟨hstatus next, ?_, ?_, ?_, ?_, ?_, hindep, fun key inner => hstatus _⟩
  · unfold corsMiddleware ResponseWriter.WriteHeader
    simp only [hmeth, if_true, hfresh, Header_Get_Set, if_neg h1, if_neg h2]
  · unfold corsMiddleware ResponseWriter.WriteHeader
    simp only [hmeth, if_true, hfresh, Header_Get_Set, if_neg h3]
  · unfold corsMiddleware ResponseWriter.WriteHeader
    simp only [hmeth, if_true, hfresh, Header_Get_Set]
  · unfold corsMiddleware ResponseWriter.WriteHeader
    simp only [hmeth, if_true, hfresh, Header_Get_Set, if_neg h4, if_neg h5, if_neg h6]
    split_ifs
    · simp only [Header_Get_Add_ne _ _ _ _ h7, Header_Get_Set, if_neg h8, if_true]
    · simp only [Header_Get_Set, if_true]
  · unfold corsMiddleware ResponseWriter.WriteHeader
    simp only [hmeth, if_true, hfresh]

/-- Witness for C16: the preflight request of `TestCORSOptionsBypassAuth`, without API key,
against a handler protected by `requireAuth`. -/
theorem preflight_bypasses_handler_witness :
    (corsMiddleware (newCORSConfig "https://allowed.example".toList [])
        (requireAuth "test-key".toList okHandler) freshResponse
        ⟨"OPTIONS".toList, "/print/text".toList, "https://allowed.example".toList, []⟩).status =
      some 204 ∧
    (requireAuth "test-key".toList okHandler freshResponse
        ⟨"OPTIONS".toList, "/print/text".toList, "https://allowed.example".toList, []⟩).status =
      some 401 :=
  ⟨(preflight_bypasses_handler (newCORSConfig "https://allowed.example".toList [])
      (requireAuth "test-key".toList okHandler) freshResponse
      ⟨"OPTIONS".toList, "/print/text".toList, "https://allowed.example".toList, []⟩
      rfl rfl).1, by decide⟩

/-! ### ESC/POS receipts -/

/-- C17: `TextReceipt(text)` is the init bytes `1B 40`, the bytes of `text` unchanged, a single
newline `0A` exactly when `text` is empty or does not already end in a newline, and the cut
command `1D 56 00`; hence the byte just before the cut command is always `0A`, and the output
has `len(text) + 6` bytes when the newline is added and `len(text) + 5` otherwise. -/
theorem TextReceipt_layout (text : List Byte) :
    TextReceipt text =
      [0x1b, 0x40] ++ text ++
        (if text = [] ∨ text.getLast? ≠ some 0x0a then [0x0a] else []) ++
        [0x1d, 0x56, 0x00] ∧
    (∃ front, TextReceipt text = front ++ [0x0a, 0x1d, 0x56, 0x00]) ∧
    (TextReceipt text).length =
      text.length + (if text = [] ∨ text.getLast? ≠ some 0x0a then 6 else 5) ∧
    ((TextReceipt text).length = text.length + 5 ∨
      (TextReceipt text).length = text.length + 6) := by
  have hcond : (text.length = 0 ∨ text[text.length - 1]? ≠ some 0x0a) ↔
      (text = [] ∨ text.getLast? ≠ some 0x0a) := by
    rw [List.getLast?_eq_getElem?, List.length_eq_zero]
  have hdef : TextReceipt text =
      [0x1b, 0x40] ++ text ++
        (if text = [] ∨ text.getLast? ≠ some 0x0a then [0x0a] else []) ++
        [0x1d, 0x56, 0x00] := by
    unfold TextReceipt
    by_cases h : text = [] ∨ text.getLast? ≠ some 0x0a
    · simp only [if_pos (hcond.2 h), if_pos h, List.nil_append, List.append_assoc]
    · simp only [if_neg (fun h' => h (hcond.1 h')), if_neg h, List.nil_append,
        List.append_assoc, List.append_nil]
  refine ⟨hdef, ?_, ?_, ?_⟩
  · rw [hdef]
    by_cases h : text = [] ∨ text.getLast? ≠ some 0x0a
    · rw [if_pos h]
      exact ⟨[0x1b, 0x40] ++ text, by simp⟩
    · rw [if_neg h]
      have hlast : text.getLast? = some 0x0a := by
        by_contra hc; exact h (Or.inr hc)
      obtain ⟨front, hfront⟩ := List.getLast?_eq_some_iff.1 hlast
      exact ⟨[0x1b, 0x40] ++ front, by rw [hfront]; simp⟩
  · rw [hdef]
    by_cases h : text = [] ∨ text.getLast? ≠ some 0x0a
    · simp only [if_pos h, List.length_append, List.length_cons, List.length_nil]
      omega
    · simp only [if_neg h, List.length_append, List.length_cons, List.length_nil]
      omega
  · rw [hdef]
    by_cases h : text = [] ∨ text.getLast? ≠ some 0x0a
    · right
      simp only [if_pos h, List.length_append, List.length_cons, List.length_nil]
      omega
    · left
      simp only [if_neg h, List.length_append, List.length_cons, List.length_nil]
      omega

/-- The receipts of the empty text, of `"Hi"` and of `"Hi\n"`. -/
theorem TextReceipt_examples :
    TextReceipt [] = [0x1b, 0x40, 0x0a, 0x1d, 0x56, 0x00] ∧
    TextReceipt [0x48, 0x69] = [0x1b, 0x40, 0x48, 0x69, 0x0a, 0x1d, 0x56, 0x00] ∧
    TextReceipt [0x48, 0x69, 0x0a] = [0x1b, 0x40, 0x48, 0x69, 0x0a, 0x1d, 0x56, 0x00] := by
  decide

end BLE
